import Mathlib

/-! Memory profiler: allocation ledger, leak detector, site ranking and source injector

A shallow embedding of `src/memory_profiler.h` and of the injector stage of `main` in
`src/memory_profiler.cpp`.

* `void*` addresses are natural numbers; `std::map<void*, _>` iterates in ascending
  address order.
* `size_t` counters are natural numbers, every update reduced modulo `2 ^ 64`.
* `std::map<K, V>` is an association list kept in ascending key order; `operator[]`
  finds the slot of a key or creates it at its ordered position.
* `std::string` keys are compared as `std::less<std::string>` does, lexicographically
  on the character sequence.
* `getCurrentTimestamp()` reads the wall clock; the value it returns is an explicit
  argument `now` of the operations that call it.
* The member functions are the statements of their bodies. The releases of their own
  heap blocks go through the replaced global `operator delete`, which calls
  `recordDeallocation`; they are calls of their own (`operatorDelete`), at addresses
  the allocator chooses.
* A source file is the list of its lines; `braceCount` is an `int`, kept as an
  integer without bound (a wrap would take `2 ^ 31` braces).
-/

namespace MemProf

/-! ## Machine arithmetic -/

/-- Number of values of a `size_t`. -/
def SIZE_MOD : Nat := 2 ^ 64

/-- Addition on `size_t` (`x += y`, `x++`). -/
def add64 (a b : Nat) : Nat := (a + b) % SIZE_MOD

/-- Subtraction on `size_t` (`x -= y`, `x - y`), wrapping below zero. -/
def sub64 (a b : Nat) : Nat := (a + (SIZE_MOD - b % SIZE_MOD)) % SIZE_MOD

/-! ## Ordered maps (`std::map`) -/

section OrderedMap

variable {K V : Type}

/-- The map member `find`: the value stored under `k`, if any. -/
def mapFind [DecidableEq K] (k : K) : List (K × V) → Option V
  | [] => none
  | (k', v) :: rest => if k' = k then some v else mapFind k rest

/-- Write through the iterator returned by `find`: the value stored under `k`
becomes `f` of it; a map without `k` is left as it is. -/
def mapModify [DecidableEq K] (k : K) (f : V → V) : List (K × V) → List (K × V)
  | [] => []
  | (k', v) :: rest =>
    if k' = k then (k', f v) :: rest else (k', v) :: mapModify k f rest

/-- Insertion of a key that the map does not hold yet, at its ordered position. -/
def mapInsert (lt : K → K → Prop) [DecidableRel lt] (k : K) (v : V) :
    List (K × V) → List (K × V)
  | [] => [(k, v)]
  | (k', v') :: rest =>
    if lt k k' then (k, v) :: (k', v') :: rest else (k', v') :: mapInsert lt k v rest

/-- The access `m[k]` followed by an update of the slot: an absent key is first
inserted with the value-initialised `dflt`, then the slot is replaced by `f` of it. -/
def mapUpdate (lt : K → K → Prop) [DecidableRel lt] [DecidableEq K]
    (k : K) (dflt : V) (f : V → V) (m : List (K × V)) : List (K × V) :=
  match mapFind k m with
  | some _ => mapModify k f m
  | none => mapInsert lt k (f dflt) m

/-- Keys strictly ascending: the shape every `std::map` has. -/
def KeysAscending (lt : K → K → Prop) (m : List (K × V)) : Prop :=
  m.Pairwise (fun a b => lt a.1 b.1)

end OrderedMap

/-- Order of `std::less<void*>` on addresses. -/
def ptrLess (a b : Nat) : Prop := a < b

instance : DecidableRel ptrLess := fun a b => inferInstanceAs (Decidable (a < b))

/-- Order of `std::less<std::string>`: lexicographic on the characters. -/
def strLess (a b : String) : Prop := a.toList < b.toList

instance : DecidableRel strLess := fun a b => inferInstanceAs (Decidable (a.toList < b.toList))

/-! ## The ledger -/

/-- The struct `AllocationInfo`. -/
structure AllocationInfo where
  address : Nat
  size : Nat
  file : String
  line : Int
  timestamp : String
  threadId : Int
  freed : Bool
deriving DecidableEq

/-- The default constructor `AllocationInfo()`. -/
def AllocationInfo.default : AllocationInfo :=
  { address := 0, size := 0, file := "", line := 0, timestamp := "", threadId := 0,
    freed := false }

/-- The data members of the class `MemoryProfiler`. -/
structure MemoryProfiler where
  allocations : List (Nat × AllocationInfo)
  totalAllocations : Nat
  totalDeallocations : Nat
  currentMemoryUsage : Nat
  peakMemoryUsage : Nat
  allocationSites : List (String × Nat)
  leakList : List AllocationInfo
deriving DecidableEq

/-- The constructor `MemoryProfiler()`: empty containers, counters at zero. -/
def MemoryProfiler.init : MemoryProfiler :=
  { allocations := [], totalAllocations := 0, totalDeallocations := 0,
    currentMemoryUsage := 0, peakMemoryUsage := 0, allocationSites := [], leakList := [] }

/-- The expression `file ? file : "unknown"`. -/
def fileName (file : Option String) : String :=
  match file with
  | some f => f
  | none => "unknown"

/-- The site key built in `recordAllocation`: file, a colon, the line in decimal. -/
def siteKey (file : Option String) (line : Int) : String :=
  fileName file ++ ":" ++ toString line

/-- The record filled in at the top of `recordAllocation`. -/
def newInfo (ptr size : Nat) (file : Option String) (line : Int) (now : String) :
    AllocationInfo :=
  { address := ptr, size := size, file := fileName file, line := line, timestamp := now,
    threadId := 1, freed := false }

/-- The member function `recordAllocation`: the statements of its body. The heap
blocks of its own strings are released through the replaced `operator delete`; each
such release is a call of `recordDeallocation` of its own, see `operatorDelete`. -/
def recordAllocation (s : MemoryProfiler) (ptr size : Nat) (file : Option String)
    (line : Int) (now : String) : MemoryProfiler :=
  let info := newInfo ptr size file line now
  let cur := add64 s.currentMemoryUsage size
  { s with
    allocations := mapUpdate ptrLess ptr AllocationInfo.default (fun _ => info) s.allocations
    totalAllocations := add64 s.totalAllocations 1
    currentMemoryUsage := cur
    peakMemoryUsage := if cur > s.peakMemoryUsage then cur else s.peakMemoryUsage
    allocationSites :=
      mapUpdate strLess (siteKey file line) 0 (fun c => add64 c 1) s.allocationSites }

/-- The member function `recordDeallocation`. -/
def recordDeallocation (s : MemoryProfiler) (ptr : Nat) : MemoryProfiler :=
  match mapFind ptr s.allocations with
  | some info =>
    { s with
      currentMemoryUsage := sub64 s.currentMemoryUsage info.size
      allocations := mapModify ptr (fun r => { r with freed := true }) s.allocations
      totalDeallocations := add64 s.totalDeallocations 1 }
  | none => s

/-- The body of the loop of `detectLeaks`: an unfreed record is pushed back. -/
def pushIfLeak (acc : List AllocationInfo) (e : Nat × AllocationInfo) : List AllocationInfo :=
  if !e.2.freed then acc ++ [e.2] else acc

/-- The member function `detectLeaks`: the list is cleared, then the map is walked
from `begin()` to `end()`. These are the statements of its body; the release of what
the old list held goes through the replaced `operator delete`, see `operatorDelete`. -/
def detectLeaks (s : MemoryProfiler) : MemoryProfiler :=
  { s with leakList := s.allocations.foldl pushIfLeak [] }

/-! ## Call sequences -/

/-- One call on the ledger. -/
inductive Call where
  | alloc (ptr size : Nat) (file : Option String) (line : Int) (now : String)
  | dealloc (ptr : Nat)
deriving DecidableEq

/-- The effect of one call. -/
def step (s : MemoryProfiler) : Call → MemoryProfiler
  | .alloc ptr size file line now => recordAllocation s ptr size file line now
  | .dealloc ptr => recordDeallocation s ptr

/-- The ledger after a sequence of calls on the empty ledger. -/
def run (calls : List Call) : MemoryProfiler := calls.foldl step MemoryProfiler.init

/-- Sum of `size` over the records of the map whose `freed` flag is false. -/
def liveBytes (m : List (Nat × AllocationInfo)) : Nat :=
  ((m.filter (fun e => !e.2.freed)).map (fun e => e.2.size)).sum

/-- Number of records of the map whose `freed` flag is false. -/
def liveCount (m : List (Nat × AllocationInfo)) : Nat :=
  (m.filter (fun e => !e.2.freed)).length

/-- The figure printed as Active Allocations: `totalAllocations - totalDeallocations`. -/
def activeAllocations (s : MemoryProfiler) : Nat :=
  sub64 s.totalAllocations s.totalDeallocations

/-! ## Call discipline -/

/-- Allocator discipline of one call in a state: `recordAllocation` on an address that
the map does not hold or whose record is freed, `recordDeallocation` on an address
that the map does not hold or whose record is not freed. -/
def disciplined (s : MemoryProfiler) : Call → Bool
  | .alloc ptr _ _ _ _ =>
    match mapFind ptr s.allocations with
    | none => true
    | some r => r.freed
  | .dealloc ptr =>
    match mapFind ptr s.allocations with
    | none => true
    | some r => !r.freed

/-- A call that cannot take `currentMemoryUsage` below zero: any `recordAllocation`,
and a `recordDeallocation` that finds no record or an unfreed record whose size is at
most `currentMemoryUsage`. -/
def noUnderflow (s : MemoryProfiler) : Call → Bool
  | .alloc _ _ _ _ _ => true
  | .dealloc ptr =>
    match mapFind ptr s.allocations with
    | none => true
    | some r => !r.freed && decide (r.size ≤ s.currentMemoryUsage)

/-- Every call of the sequence passes `guard` in the state it is made in. -/
def allowedFrom (guard : MemoryProfiler → Call → Bool) : MemoryProfiler → List Call → Bool
  | _, [] => true
  | s, c :: cs => guard s c && allowedFrom guard (step s c) cs

/-! ## Site ranking of the report -/

/-- Body of the inner loop of the exchange sort in `generateHTMLReport`: slots `j` and
`j + 1` are exchanged when the count in slot `j` is the smaller one. -/
def exchangeStep (a : List (String × Nat)) (j : Nat) : List (String × Nat) :=
  match a[j]?, a[j + 1]? with
  | some x, some y => if x.2 < y.2 then (a.set j y).set (j + 1) x else a
  | _, _ => a

/-- The inner loop for one value of `i`: `j` runs from `0` up to `size - 1 - i`
(no wrap-around there: the outer loop has `i < size`). -/
def innerLoop (a : List (String × Nat)) (i : Nat) : List (String × Nat) :=
  (List.range (a.length - 1 - i)).foldl exchangeStep a

/-- The exchange sort: `sortedSites` is the map's range copied into a vector, and
`i` runs from `0` up to `size`. -/
def sortSites (sites : List (String × Nat)) : List (String × Nat) :=
  (List.range sites.length).foldl innerLoop sites

/-- The local `displayCount`. -/
def displayCount (sorted : List (String × Nat)) : Nat :=
  if sorted.length < 10 then sorted.length else 10

/-- The entries the report shows as top allocation sites: `sortedSites[i]` for `i`
from `0` up to `displayCount`. -/
def topSites (sites : List (String × Nat)) : List (String × Nat) :=
  (List.range (displayCount (sortSites sites))).filterMap (fun i => (sortSites sites)[i]?)

/-- Ranking order of two entries: the larger count first, and for equal counts the
smaller site key first. -/
def rankBefore (x y : String × Nat) : Prop :=
  y.2 < x.2 ∨ (x.2 = y.2 ∧ strLess x.1 y.1)

/-- Proof device: `n` compare-and-exchange steps along a list, from its head. -/
def bubbleN : Nat → List (String × Nat) → List (String × Nat)
  | n + 1, x :: y :: rest =>
    if x.2 < y.2 then y :: bubbleN n (x :: rest) else x :: bubbleN n (y :: rest)
  | _, l => l

/-! ## Report rendering (`printSummary`, `generateHTMLReport`)

The renderers write text; what is kept of it are the figures it is built from. The
figures shown in KB are kept as the byte counts they are computed from, and the
percentages (both are floating point) as the count they are computed from. -/

/-- The figures `printSummary` writes to the console, in the order it writes them. -/
structure Summary where
  totalAllocations : Nat
  totalDeallocations : Nat
  currentBytes : Nat
  peakBytes : Nat
  leakCount : Nat
deriving DecidableEq

/-- The member function `printSummary`: it reads the four counters and
`leakList.size()`, and changes nothing. -/
def printSummary (s : MemoryProfiler) : MemoryProfiler × Summary :=
  (s, { totalAllocations := s.totalAllocations
        totalDeallocations := s.totalDeallocations
        currentBytes := s.currentMemoryUsage
        peakBytes := s.peakMemoryUsage
        leakCount := s.leakList.length })

/-- What `generateHTMLReport` renders: the six headline statistics, the rows of the
leak table and the rows of the top allocation sites table. -/
structure HtmlReport where
  generated : String
  totalAllocations : Nat
  totalDeallocations : Nat
  currentBytes : Nat
  peakBytes : Nat
  leakCount : Nat
  activeAllocations : Nat
  leaks : List AllocationInfo
  sites : List (String × Nat)
deriving DecidableEq

/-- The member function `generateHTMLReport`: `detectLeaks()` first, then the document
is rendered from the resulting state. These are the statements of its body; the
releases of its strings, of `sortedSites` and of the old leak list go through the
replaced `operator delete`, see `operatorDelete`. -/
def generateHTMLReport (s : MemoryProfiler) (now : String) : MemoryProfiler × HtmlReport :=
  let s1 := detectLeaks s
  (s1, { generated := now
         totalAllocations := s1.totalAllocations
         totalDeallocations := s1.totalDeallocations
         currentBytes := s1.currentMemoryUsage
         peakBytes := s1.peakMemoryUsage
         leakCount := s1.leakList.length
         activeAllocations := activeAllocations s1
         leaks := s1.leakList
         sites := topSites s1.allocationSites })

/-- One call of a public member function of the ledger. -/
inductive Op where
  | alloc (ptr size : Nat) (file : Option String) (line : Int) (now : String)
  | dealloc (ptr : Nat)
  | detect
  | summary
  | html (now : String)
deriving DecidableEq

/-- The ledger after one call of a public member function. -/
def stepOp (s : MemoryProfiler) : Op → MemoryProfiler
  | .alloc ptr size file line now => recordAllocation s ptr size file line now
  | .dealloc ptr => recordDeallocation s ptr
  | .detect => detectLeaks s
  | .summary => (printSummary s).1
  | .html now => (generateHTMLReport s now).1

/-- Number of `recordAllocation` calls in a sequence. -/
def allocCount : List Call → Nat
  | [] => 0
  | .alloc _ _ _ _ _ :: cs => allocCount cs + 1
  | .dealloc _ :: cs => allocCount cs

/-- The addresses passed to `recordAllocation` in a sequence of calls. -/
def allocatedAddresses : List Call → List Nat
  | [] => []
  | .alloc ptr _ _ _ _ :: cs => ptr :: allocatedAddresses cs
  | .dealloc _ :: cs => allocatedAddresses cs

/-- The count the site table holds for a site key, 0 for a key it does not hold. -/
def siteCount (s : MemoryProfiler) (site : String) : Nat :=
  match mapFind site s.allocationSites with
  | some c => c
  | none => 0

/-! ## The source instrumentation injector (`main` of `memory_profiler.cpp`)

A source file is the list of lines `std::getline` returns; the file written is the
list of lines sent to `outFile`, each followed by a newline. -/

/-- The test `text.find(pat) != std::string::npos` on character sequences. -/
def hasSub (pat : List Char) : List Char → Bool
  | [] => pat.isEmpty
  | c :: cs => pat.isPrefixOf (c :: cs) || hasSub pat cs

/-- The test `line.find(pat) != std::string::npos`. -/
def containsText (line pat : String) : Bool := hasSub pat.toList line.toList

/-- The line written first to the instrumented file, also the marker of a file that
is instrumented already. -/
def includeLine : String := "#include \"memory_profiler.h\""

/-- The text that marks the entry function. -/
def entrySignature : String := "int main"

/-- The five lines written before a qualifying `return` line. -/
def reportBlock : List String :=
  ["    // Memory Profiler Report Generation",
   "    MemoryProfiler::getInstance().detectLeaks();",
   "    MemoryProfiler::getInstance().printSummary();",
   "    MemoryProfiler::getInstance().generateHTMLReport();",
   "    "]

/-- The loop over the characters of a line: `braceCount++` on an opening brace,
`braceCount--` on a closing one. -/
def countBraces (braceCount : Int) : List Char → Int
  | [] => braceCount
  | c :: cs =>
    let b1 := if c = Char.ofNat 123 then braceCount + 1 else braceCount
    let b2 := if c = Char.ofNat 125 then b1 - 1 else b1
    countBraces b2 cs

/-- The locals of the rewriting loop. -/
structure Scan where
  inMain : Bool
  braceCount : Int
deriving DecidableEq

/-- The locals before the first line. -/
def Scan.start : Scan := { inMain := false, braceCount := 0 }

/-- The locals after a line has been looked at: `inMain` is set on the entry
signature, and braces are counted once `inMain` is set. -/
def scanLine (st : Scan) (line : String) : Scan :=
  let inMain := st.inMain || containsText line entrySignature
  { inMain := inMain
    braceCount := if inMain then countBraces st.braceCount line.toList else st.braceCount }

/-- The condition under which the report block is written before a line, on the
locals as they are after that line has been looked at. -/
def qualifies (st : Scan) (line : String) : Bool :=
  st.inMain && decide (st.braceCount = 1) && containsText line "return"

/-- The lines one iteration of the rewriting loop sends to `outFile`. -/
def emitLine (st : Scan) (line : String) : List String :=
  if qualifies (scanLine st line) line then reportBlock ++ [line] else [line]

/-- The lines the rewriting loop sends to `outFile`, from given locals. -/
def emitFrom : Scan → List String → List String
  | _, [] => []
  | st, line :: rest => emitLine st line ++ emitFrom (scanLine st line) rest

/-- No line of the list gets the report block, from given locals. -/
def quietFrom : Scan → List String → Bool
  | _, [] => true
  | st, line :: rest => !qualifies (scanLine st line) line && quietFrom (scanLine st line) rest

/-- Every line of the list ends at brace depth 2 or more, from given locals. -/
def nestedFrom : Scan → List String → Bool
  | _, [] => true
  | st, line :: rest =>
    decide (2 ≤ (scanLine st line).braceCount) && nestedFrom (scanLine st line) rest

/-- The locals after a list of lines. -/
def scanFrom (st : Scan) (lines : List String) : Scan := lines.foldl scanLine st

/-- The instrumented file when the rewrite runs: the include line, then what the
rewriting loop writes for `fileContent`. -/
def rewrite (fileContent : List String) : List String :=
  includeLine :: emitFrom Scan.start fileContent

/-- The locals of `main` that the reading loop sets. -/
structure ReadState where
  instrumentedFile : String
  hasMain : Bool
  fileContent : List String
  removed : Bool
deriving DecidableEq

/-- The reading loop `while (std::getline(inFile, line))`: a line with the marker
closes and removes the instrumented copy, makes the original the file to build,
sets `hasMain` and leaves the loop; any other line is tested for the entry
signature and appended to `fileContent`. -/
def readLoop (filename : String) : ReadState → List String → ReadState
  | st, [] => st
  | st, line :: rest =>
    if containsText line includeLine then
      { st with instrumentedFile := filename, hasMain := true, removed := true }
    else
      readLoop filename
        { st with hasMain := st.hasMain || containsText line entrySignature
                  fileContent := st.fileContent ++ [line] } rest

/-- How the injector stage of `main` ends. -/
inductive Outcome where
  | noEntryPoint
  | compile (path : String)
deriving DecidableEq

/-- The exit status `main` returns when it stops in the injector stage. -/
def Outcome.exitStatus : Outcome → Option Nat
  | .noEntryPoint => some 1
  | .compile _ => none

/-- What the injector stage of `main` leaves behind. -/
structure Injection where
  instrumentedFile : String
  copy : Option (List String)
  outcome : Outcome
  cleanupRemovesCopy : Bool
deriving DecidableEq

/-- The injector stage of `main`, from the creation of the instrumented copy to the
check of `hasMain`, for a file name and the lines of that file. `copy` is what this
stage sends to `outFile` and keeps (`none` when the copy was removed): the content of
the file `instrumented_<filename>` when the stream could be opened, see
`instrumentedOnDisk`. `cleanupRemovesCopy` is the test guarding the final clean-up. -/
def inject (filename : String) (lines : List String) : Injection :=
  let st := readLoop filename
    { instrumentedFile := "instrumented_" ++ filename, hasMain := false, fileContent := [],
      removed := false } lines
  let copy :=
    if st.instrumentedFile ≠ filename then some (rewrite st.fileContent)
    else if st.removed then none else some [includeLine]
  { instrumentedFile := st.instrumentedFile
    copy := copy
    outcome := if !st.hasMain then Outcome.noEntryPoint else Outcome.compile st.instrumentedFile
    cleanupRemovesCopy := decide (st.instrumentedFile ≠ filename) }

/-! ## Allocator discipline with every counter in range -/

/-- Allocator discipline in the strict sense: `recordAllocation` on an address that
the map does not hold or whose record is freed, `recordDeallocation` on an address
whose record is present and not freed. -/
def allocatorDiscipline (s : MemoryProfiler) : Call → Bool
  | .alloc ptr _ _ _ _ =>
    match mapFind ptr s.allocations with
    | none => true
    | some r => r.freed
  | .dealloc ptr =>
    match mapFind ptr s.allocations with
    | none => false
    | some r => !r.freed

/-- A call that follows allocator discipline and after which the total of the live
sizes is below `2 ^ 64`. -/
def inRange (s : MemoryProfiler) (c : Call) : Bool :=
  allocatorDiscipline s c && decide (liveBytes (step s c).allocations < SIZE_MOD)

/-! ## The replaced global `operator delete`

`memory_profiler.h` replaces the global `operator delete` and `operator delete[]`. Every
release of a heap block in the program goes through them, the releases made by the
ledger's own member functions included: the buffers of their `std::string` values and
temporaries, the storage of `leakList` and of `sortedSites`, stream buffers. Where such
a block lies is the allocator's choice. -/

/-- The replaced `operator delete(void*)` (and `operator delete[]`): a non-null pointer
is passed to `recordDeallocation` before the block is freed. -/
def operatorDelete (s : MemoryProfiler) (ptr : Nat) : MemoryProfiler :=
  if ptr ≠ 0 then recordDeallocation s ptr else s

/-! ## The instrumented copy on disk -/

/-- The file `instrumented_<filename>` after the injector stage. `opened` tells whether
`std::ofstream outFile(instrumentedFile.c_str())` could open it; the path is
`"instrumented_"` followed by the whole file name, directory part included, and the
stream is never tested: when it did not open, every `outFile <<` is without effect and
no file is written. -/
def instrumentedOnDisk (opened : Bool) (filename : String) (lines : List String) :
    Option (List String) :=
  if opened then (inject filename lines).copy else none

end MemProf

namespace MemProf

/-! ## Machine arithmetic -/

theorem SIZE_MOD_eq : SIZE_MOD = 18446744073709551616 := by
  norm_num [SIZE_MOD]

theorem add64_lt (a b : Nat) : add64 a b < SIZE_MOD :=
  Nat.mod_lt _ (by norm_num [SIZE_MOD])

theorem sub64_lt (a b : Nat) : sub64 a b < SIZE_MOD :=
  Nat.mod_lt _ (by norm_num [SIZE_MOD])

theorem sub64_of_le (a b : Nat) (hb : b ≤ a) (ha : a < SIZE_MOD) : sub64 a b = a - b := by
  unfold sub64
  rw [SIZE_MOD_eq] at *
  omega

/-! ## Ordered maps -/

section OrderedMap

variable {K V : Type}

theorem mapFind_eq_none_iff [DecidableEq K] (k : K) (m : List (K × V)) :
    mapFind k m = none ↔ ∀ e ∈ m, e.1 ≠ k := by
  induction m with
  | nil => simp [mapFind]
  | cons e rest ih =>
    obtain ⟨k', v⟩ := e
    by_cases h : k' = k
    · simp [mapFind, h]
    · simp [mapFind, h, ih]

theorem mapFind_mem [DecidableEq K] (k : K) (m : List (K × V)) (v : V)
    (h : mapFind k m = some v) : (k, v) ∈ m := by
  induction m with
  | nil => simp [mapFind] at h
  | cons e rest ih =>
    obtain ⟨k', v'⟩ := e
    by_cases hk : k' = k
    · simp [mapFind, hk] at h
      simp [hk, h]
    · simp [mapFind, hk] at h
      exact List.mem_cons_of_mem _ (ih h)

theorem mapFind_mapModify [DecidableEq K] (k k' : K) (f : V → V) (m : List (K × V)) :
    mapFind k' (mapModify k f m) =
      if k' = k then (mapFind k m).map f else mapFind k' m := by
  induction m with
  | nil => simp [mapFind, mapModify]
  | cons e rest ih =>
    obtain ⟨k0, v⟩ := e
    by_cases h0 : k0 = k
    · subst h0
      by_cases h1 : k0 = k'
      · subst h1
        simp [mapFind, mapModify]
      · have h2 : ¬ k' = k0 := fun h => h1 h.symm
        simp [mapFind, mapModify, h1, h2]
    · by_cases h1 : k0 = k'
      · subst h1
        simp [mapFind, mapModify, h0]
      · simp [mapFind, mapModify, h0, h1, ih]

theorem mapFind_mapInsert [DecidableEq K] (lt : K → K → Prop) [DecidableRel lt]
    (k k' : K) (v : V) (m : List (K × V)) (hk : mapFind k m = none) :
    mapFind k' (mapInsert lt k v m) = if k' = k then some v else mapFind k' m := by
  induction m with
  | nil =>
    by_cases h : k = k'
    · subst h
      simp [mapFind, mapInsert]
    · have h2 : ¬ k' = k := fun e => h e.symm
      simp [mapFind, mapInsert, h, h2]
  | cons e rest ih =>
    obtain ⟨k0, v0⟩ := e
    have h0 : ¬ k0 = k := by
      intro e
      simp [mapFind, e] at hk
    have hrest : mapFind k rest = none := by
      simpa [mapFind, h0] using hk
    by_cases hlt : lt k k0
    · by_cases h : k = k'
      · subst h
        simp [mapFind, mapInsert, hlt]
      · have h2 : ¬ k' = k := fun e => h e.symm
        simp [mapFind, mapInsert, hlt, h, h2]
    · by_cases h1 : k0 = k'
      · subst h1
        simp [mapFind, mapInsert, hlt, h0]
      · simp [mapFind, mapInsert, hlt, h1, ih hrest]

theorem mapFind_mapUpdate [DecidableEq K] (lt : K → K → Prop) [DecidableRel lt]
    (k k' : K) (dflt : V) (f : V → V) (m : List (K × V)) :
    mapFind k' (mapUpdate lt k dflt f m) =
      if k' = k then some (f ((mapFind k m).getD dflt)) else mapFind k' m := by
  unfold mapUpdate
  cases h : mapFind k m with
  | none =>
    simp only [mapFind_mapInsert lt k k' (f dflt) m h]
    simp
  | some r =>
    simp only [mapFind_mapModify, h]
    simp

theorem map_fst_mapModify [DecidableEq K] (k : K) (f : V → V) (m : List (K × V)) :
    (mapModify k f m).map Prod.fst = m.map Prod.fst := by
  induction m with
  | nil => rfl
  | cons e rest ih =>
    obtain ⟨k0, v⟩ := e
    by_cases h0 : k0 = k
    · simp [mapModify, h0]
    · simp [mapModify, h0, ih]

theorem sum_mapModify [DecidableEq K] (w : V → Nat) (k : K) (f : V → V)
    (m : List (K × V)) (r : V) (h : mapFind k m = some r) :
    ((mapModify k f m).map (fun e => w e.2)).sum + w r =
      (m.map (fun e => w e.2)).sum + w (f r) := by
  induction m with
  | nil => simp [mapFind] at h
  | cons e rest ih =>
    obtain ⟨k0, v⟩ := e
    by_cases h0 : k0 = k
    · simp [mapFind, h0] at h
      subst h
      simp [mapModify, h0]
      omega
    · simp [mapFind, h0] at h
      have := ih h
      simp [mapModify, h0]
      omega

theorem sum_mapInsert (lt : K → K → Prop) [DecidableRel lt] (w : V → Nat) (k : K) (v : V)
    (m : List (K × V)) :
    ((mapInsert lt k v m).map (fun e => w e.2)).sum = (m.map (fun e => w e.2)).sum + w v := by
  induction m with
  | nil => simp [mapInsert]
  | cons e rest ih =>
    obtain ⟨k0, v0⟩ := e
    by_cases hlt : lt k k0
    · simp [mapInsert, hlt]
      omega
    · simp [mapInsert, hlt, ih]
      omega

end OrderedMap

/-! ## Live bytes and live records -/

theorem liveBytes_eq_sum (m : List (Nat × AllocationInfo)) :
    liveBytes m = (m.map (fun e => if e.2.freed then 0 else e.2.size)).sum := by
  induction m with
  | nil => rfl
  | cons e rest ih =>
    unfold liveBytes at ih ⊢
    cases hf : e.2.freed <;> simp [List.filter_cons, hf, ih]

theorem liveCount_eq_sum (m : List (Nat × AllocationInfo)) :
    liveCount m = (m.map (fun e => if e.2.freed then 0 else 1)).sum := by
  induction m with
  | nil => rfl
  | cons e rest ih =>
    unfold liveCount at ih ⊢
    cases hf : e.2.freed <;> simp [List.filter_cons, hf, ih]
    omega

/-! ## Effect of one call on the live records -/

theorem liveBytes_recordAllocation (s : MemoryProfiler) (ptr size : Nat)
    (file : Option String) (line : Int) (now : String)
    (h : disciplined s (.alloc ptr size file line now) = true) :
    liveBytes (recordAllocation s ptr size file line now).allocations =
      liveBytes s.allocations + size := by
  simp only [liveBytes_eq_sum, recordAllocation, mapUpdate]
  cases hf : mapFind ptr s.allocations with
  | none =>
    have := sum_mapInsert ptrLess (fun (r : AllocationInfo) => if r.freed then 0 else r.size)
      ptr (newInfo ptr size file line now) s.allocations
    simpa [newInfo] using this
  | some r =>
    have hr : r.freed = true := by simpa [disciplined, hf] using h
    have := sum_mapModify (fun (r : AllocationInfo) => if r.freed then 0 else r.size) ptr
      (fun _ => newInfo ptr size file line now) s.allocations r hf
    simp [hr, newInfo] at this
    simpa using this

theorem liveCount_recordAllocation (s : MemoryProfiler) (ptr size : Nat)
    (file : Option String) (line : Int) (now : String)
    (h : disciplined s (.alloc ptr size file line now) = true) :
    liveCount (recordAllocation s ptr size file line now).allocations =
      liveCount s.allocations + 1 := by
  simp only [liveCount_eq_sum, recordAllocation, mapUpdate]
  cases hf : mapFind ptr s.allocations with
  | none =>
    have := sum_mapInsert ptrLess (fun (r : AllocationInfo) => if r.freed then 0 else 1)
      ptr (newInfo ptr size file line now) s.allocations
    simpa [newInfo] using this
  | some r =>
    have hr : r.freed = true := by simpa [disciplined, hf] using h
    have := sum_mapModify (fun (r : AllocationInfo) => if r.freed then 0 else 1) ptr
      (fun _ => newInfo ptr size file line now) s.allocations r hf
    simp [hr, newInfo] at this
    simpa using this

theorem liveBytes_free (m : List (Nat × AllocationInfo)) (ptr : Nat) (r : AllocationInfo)
    (hf : mapFind ptr m = some r) (hr : r.freed = false) :
    liveBytes (mapModify ptr (fun r => { r with freed := true }) m) + r.size = liveBytes m := by
  have := sum_mapModify (fun (r : AllocationInfo) => if r.freed then 0 else r.size) ptr
    (fun r => { r with freed := true }) m r hf
  simp [hr] at this
  simpa [liveBytes_eq_sum] using this

theorem liveCount_free (m : List (Nat × AllocationInfo)) (ptr : Nat) (r : AllocationInfo)
    (hf : mapFind ptr m = some r) (hr : r.freed = false) :
    liveCount (mapModify ptr (fun r => { r with freed := true }) m) + 1 = liveCount m := by
  have := sum_mapModify (fun (r : AllocationInfo) => if r.freed then 0 else 1) ptr
    (fun r => { r with freed := true }) m r hf
  simp [hr] at this
  simpa [liveCount_eq_sum] using this

/-! ## Induction over guarded call sequences -/

theorem allowedFrom_induction (guard : MemoryProfiler → Call → Bool)
    (P : MemoryProfiler → Prop)
    (hstep : ∀ s c, P s → guard s c = true → P (step s c)) :
    ∀ (calls : List Call) (s : MemoryProfiler), P s → allowedFrom guard s calls = true →
      P (calls.foldl step s) := by
  intro calls
  induction calls with
  | nil => intro s hs _; simpa using hs
  | cons c cs ih =>
    intro s hs h
    simp only [allowedFrom, Bool.and_eq_true] at h
    simp only [List.foldl_cons]
    exact ih (step s c) (hstep s c hs h.1) h.2

theorem run_induction (P : MemoryProfiler → Prop) (h0 : P MemoryProfiler.init)
    (hstep : ∀ s c, P s → P (step s c)) (calls : List Call) : P (run calls) := by
  unfold run
  generalize MemoryProfiler.init = s at h0
  induction calls generalizing s with
  | nil => simpa using h0
  | cons c cs ih =>
    simp only [List.foldl_cons]
    exact ih (step s c) (hstep s c h0)

/-- Invariant behind the byte count: the counter is the live bytes modulo `2 ^ 64`. -/
theorem bytes_step (s : MemoryProfiler) (c : Call)
    (hs : s.currentMemoryUsage = liveBytes s.allocations % SIZE_MOD)
    (hc : disciplined s c = true) :
    (step s c).currentMemoryUsage = liveBytes (step s c).allocations % SIZE_MOD := by
  cases c with
  | alloc ptr size file line now =>
    simp only [step]
    rw [liveBytes_recordAllocation s ptr size file line now hc]
    simp only [recordAllocation, add64, hs]
    rw [SIZE_MOD_eq]
    omega
  | dealloc ptr =>
    simp only [step, recordDeallocation]
    cases hf : mapFind ptr s.allocations with
    | none => simpa using hs
    | some r =>
      have hr : r.freed = false := by simpa [disciplined, hf] using hc
      have := liveBytes_free s.allocations ptr r hf hr
      simp only [sub64, hs]
      rw [← this, SIZE_MOD_eq]
      omega

/-- Invariant behind the active count. -/
theorem count_step (s : MemoryProfiler) (c : Call)
    (hs : s.totalAllocations < SIZE_MOD ∧ s.totalDeallocations < SIZE_MOD ∧
      s.totalAllocations = (s.totalDeallocations + liveCount s.allocations) % SIZE_MOD)
    (hc : disciplined s c = true) :
    (step s c).totalAllocations < SIZE_MOD ∧ (step s c).totalDeallocations < SIZE_MOD ∧
      (step s c).totalAllocations =
        ((step s c).totalDeallocations + liveCount (step s c).allocations) % SIZE_MOD := by
  obtain ⟨h1, h2, h3⟩ := hs
  cases c with
  | alloc ptr size file line now =>
    simp only [step]
    rw [liveCount_recordAllocation s ptr size file line now hc]
    simp only [recordAllocation, add64]
    rw [SIZE_MOD_eq] at *
    omega
  | dealloc ptr =>
    simp only [step, recordDeallocation]
    cases hf : mapFind ptr s.allocations with
    | none => exact ⟨h1, h2, h3⟩
    | some r =>
      have hr : r.freed = false := by simpa [disciplined, hf] using hc
      have := liveCount_free s.allocations ptr r hf hr
      simp only [add64]
      rw [← this] at h3
      rw [SIZE_MOD_eq] at *
      omega

/-- Invariant behind the peak. -/
theorem peak_step (s : MemoryProfiler) (c : Call)
    (hs : s.currentMemoryUsage < SIZE_MOD ∧ s.currentMemoryUsage ≤ s.peakMemoryUsage)
    (hc : noUnderflow s c = true) :
    (step s c).currentMemoryUsage < SIZE_MOD ∧
      (step s c).currentMemoryUsage ≤ (step s c).peakMemoryUsage := by
  obtain ⟨h1, h2⟩ := hs
  cases c with
  | alloc ptr size file line now =>
    simp only [step, recordAllocation]
    refine ⟨add64_lt _ _, ?_⟩
    split <;> omega
  | dealloc ptr =>
    simp only [step, recordDeallocation]
    cases hf : mapFind ptr s.allocations with
    | none => exact ⟨h1, h2⟩
    | some r =>
      have hr : r.size ≤ s.currentMemoryUsage := by
        have := hc
        simp [noUnderflow, hf] at this
        exact this.2
      simp only []
      rw [sub64_of_le _ _ hr h1]
      omega

/-! ## C1 -/

/-- C1 fails as stated. Recording a second allocation on an address whose record is
still live overwrites the record but keeps its bytes in the counter (150 against 50
live bytes), and releasing an address twice subtracts its size twice (the counter
wraps to `2 ^ 64 - 100` against 0 live bytes). -/
theorem C1_counter_not_live_bytes :
    ((run [.alloc 1 100 (some "a.c") 10 "t0", .alloc 1 50 (some "a.c") 11 "t1"]).currentMemoryUsage
        = 150 ∧
      liveBytes (run [.alloc 1 100 (some "a.c") 10 "t0",
        .alloc 1 50 (some "a.c") 11 "t1"]).allocations % SIZE_MOD = 50) ∧
    ((run [.alloc 1 100 (some "a.c") 10 "t0", .dealloc 1, .dealloc 1]).currentMemoryUsage
        = 2 ^ 64 - 100 ∧
      liveBytes (run [.alloc 1 100 (some "a.c") 10 "t0", .dealloc 1,
        .dealloc 1]).allocations % SIZE_MOD = 0) := by
  decide

/-- C1 (amended): in every ledger state reached from the empty ledger by a sequence of
calls that follows allocator discipline (`recordAllocation` only on an address that is
absent or whose record is freed, `recordDeallocation` only on an address that is absent
or whose record is not freed), `currentMemoryUsage` equals the sum of `size` over the
records with `freed == false`, modulo `2 ^ 64`. -/
theorem C1_currentMemoryUsage_eq_liveBytes (calls : List Call)
    (h : allowedFrom disciplined MemoryProfiler.init calls = true) :
    (run calls).currentMemoryUsage = liveBytes (run calls).allocations % SIZE_MOD :=
  allowedFrom_induction disciplined
    (fun s => s.currentMemoryUsage = liveBytes s.allocations % SIZE_MOD)
    bytes_step calls MemoryProfiler.init (by decide) h

theorem C1_currentMemoryUsage_eq_liveBytes_witness :
    allowedFrom disciplined MemoryProfiler.init
        [.alloc 1 100 (some "a.c") 10 "t0", .alloc 2 50 none 11 "t1", .dealloc 1,
          .alloc 1 7 (some "b.c") 3 "t2", .dealloc 9] = true ∧
      (run [.alloc 1 100 (some "a.c") 10 "t0", .alloc 2 50 none 11 "t1", .dealloc 1,
          .alloc 1 7 (some "b.c") 3 "t2", .dealloc 9]).currentMemoryUsage =
        liveBytes (run [.alloc 1 100 (some "a.c") 10 "t0", .alloc 2 50 none 11 "t1",
          .dealloc 1, .alloc 1 7 (some "b.c") 3 "t2", .dealloc 9]).allocations % SIZE_MOD :=
  ⟨by decide, C1_currentMemoryUsage_eq_liveBytes _ (by decide)⟩

/-! ## C2 -/

/-- C2 (the code at the failing input): after an allocation of 100 bytes at address 1
and one `recordDeallocation`, `currentMemoryUsage` is 0 and `totalDeallocations` is 1;
a second `recordDeallocation` on the same address finds the record, does not look at
its `freed` flag, subtracts the size again and counts again: `currentMemoryUsage`
wraps to `2 ^ 64 - 100` and `totalDeallocations` becomes 2. -/
theorem C2_second_release_decrements_again :
    (run [.alloc 1 100 (some "a.c") 10 "t0", .dealloc 1]).currentMemoryUsage = 0 ∧
    (run [.alloc 1 100 (some "a.c") 10 "t0", .dealloc 1]).totalDeallocations = 1 ∧
    mapFind 1 (run [.alloc 1 100 (some "a.c") 10 "t0", .dealloc 1]).allocations =
      some { address := 1, size := 100, file := "a.c", line := 10, timestamp := "t0",
             threadId := 1, freed := true } ∧
    (recordDeallocation (run [.alloc 1 100 (some "a.c") 10 "t0", .dealloc 1])
      1).currentMemoryUsage = 2 ^ 64 - 100 ∧
    (recordDeallocation (run [.alloc 1 100 (some "a.c") 10 "t0", .dealloc 1])
      1).totalDeallocations = 2 := by
  decide

/-! ## C3 -/

/-- C3 fails as stated. Two allocations recorded on the same live address leave one
record but an active count of 2, and releasing an address twice takes the active
count from 0 to `2 ^ 64 - 1` with no live record. -/
theorem C3_active_count_not_live_count :
    (activeAllocations (run [.alloc 1 100 (some "a.c") 10 "t0",
        .alloc 1 50 (some "a.c") 11 "t1"]) = 2 ∧
      liveCount (run [.alloc 1 100 (some "a.c") 10 "t0",
        .alloc 1 50 (some "a.c") 11 "t1"]).allocations = 1) ∧
    (activeAllocations (run [.alloc 1 100 (some "a.c") 10 "t0", .dealloc 1, .dealloc 1])
        = 2 ^ 64 - 1 ∧
      liveCount (run [.alloc 1 100 (some "a.c") 10 "t0", .dealloc 1,
        .dealloc 1]).allocations = 0) := by
  decide

/-- C3 (amended): in every ledger state reached from the empty ledger by a sequence of
calls that follows allocator discipline (`recordAllocation` only on an address that is
absent or whose record is freed, `recordDeallocation` only on an address that is absent
or whose record is not freed), `totalAllocations - totalDeallocations`, computed on
`size_t`, equals the number of records with `freed == false`, modulo `2 ^ 64`. -/
theorem C3_activeAllocations_eq_liveCount (calls : List Call)
    (h : allowedFrom disciplined MemoryProfiler.init calls = true) :
    activeAllocations (run calls) = liveCount (run calls).allocations % SIZE_MOD := by
  have key := allowedFrom_induction disciplined
    (fun s => s.totalAllocations < SIZE_MOD ∧ s.totalDeallocations < SIZE_MOD ∧
      s.totalAllocations = (s.totalDeallocations + liveCount s.allocations) % SIZE_MOD)
    count_step calls MemoryProfiler.init (by decide) h
  obtain ⟨h1, h2, h3⟩ := key
  show sub64 (run calls).totalAllocations (run calls).totalDeallocations = _
  unfold run at *
  unfold sub64
  rw [SIZE_MOD_eq] at *
  omega

theorem C3_activeAllocations_eq_liveCount_witness :
    allowedFrom disciplined MemoryProfiler.init
        [.alloc 1 100 (some "a.c") 10 "t0", .alloc 2 50 none 11 "t1", .dealloc 1,
          .alloc 1 7 (some "b.c") 3 "t2", .dealloc 9] = true ∧
      activeAllocations (run [.alloc 1 100 (some "a.c") 10 "t0", .alloc 2 50 none 11 "t1",
          .dealloc 1, .alloc 1 7 (some "b.c") 3 "t2", .dealloc 9]) =
        liveCount (run [.alloc 1 100 (some "a.c") 10 "t0", .alloc 2 50 none 11 "t1",
          .dealloc 1, .alloc 1 7 (some "b.c") 3 "t2", .dealloc 9]).allocations % SIZE_MOD :=
  ⟨by decide, C3_activeAllocations_eq_liveCount _ (by decide)⟩

/-! ## C4 -/

/-- C4 fails as stated. With two live blocks of `2 ^ 63` and `2 ^ 63 + 5` bytes the
counter has wrapped to 5 with a peak of `2 ^ 63`; releasing the first block wraps it
back to `2 ^ 63 + 5`, above the peak. Releasing an address twice does the same: the
counter wraps to `2 ^ 64 - 100` with a peak of 100. -/
theorem C4_current_above_peak :
    ((run [.alloc 1 (2 ^ 63) (some "a.c") 10 "t0", .alloc 2 (2 ^ 63 + 5) (some "a.c") 11 "t1",
        .dealloc 1]).peakMemoryUsage = 2 ^ 63 ∧
      (run [.alloc 1 (2 ^ 63) (some "a.c") 10 "t0", .alloc 2 (2 ^ 63 + 5) (some "a.c") 11 "t1",
        .dealloc 1]).currentMemoryUsage = 2 ^ 63 + 5) ∧
    ((run [.alloc 1 100 (some "a.c") 10 "t0", .dealloc 1, .dealloc 1]).peakMemoryUsage = 100 ∧
      (run [.alloc 1 100 (some "a.c") 10 "t0", .dealloc 1, .dealloc 1]).currentMemoryUsage
        = 2 ^ 64 - 100) := by
  decide

/-- C4 (amended): in every ledger state reached from the empty ledger by a sequence of
`recordAllocation` and `recordDeallocation` calls in which every `recordDeallocation`
finds either no record or an unfreed record whose size is at most `currentMemoryUsage`
(so that the subtraction does not wrap), `peakMemoryUsage >= currentMemoryUsage`. -/
theorem C4_peak_ge_current (calls : List Call)
    (h : allowedFrom noUnderflow MemoryProfiler.init calls = true) :
    (run calls).currentMemoryUsage ≤ (run calls).peakMemoryUsage :=
  (allowedFrom_induction noUnderflow
    (fun s => s.currentMemoryUsage < SIZE_MOD ∧ s.currentMemoryUsage ≤ s.peakMemoryUsage)
    peak_step calls MemoryProfiler.init (by decide) h).2

theorem C4_peak_ge_current_witness :
    allowedFrom noUnderflow MemoryProfiler.init
        [.alloc 1 100 (some "a.c") 10 "t0", .alloc 1 50 none 11 "t1", .dealloc 1,
          .alloc 3 (2 ^ 64 - 1) (some "b.c") 3 "t2", .dealloc 9] = true ∧
      (run [.alloc 1 100 (some "a.c") 10 "t0", .alloc 1 50 none 11 "t1", .dealloc 1,
          .alloc 3 (2 ^ 64 - 1) (some "b.c") 3 "t2", .dealloc 9]).currentMemoryUsage ≤
        (run [.alloc 1 100 (some "a.c") 10 "t0", .alloc 1 50 none 11 "t1", .dealloc 1,
          .alloc 3 (2 ^ 64 - 1) (some "b.c") 3 "t2", .dealloc 9]).peakMemoryUsage :=
  ⟨by decide, C4_peak_ge_current _ (by decide)⟩

/-! ## C6 -/

/-- C6: for every ledger state and every address that is not a key of the allocation
map, `recordDeallocation` returns the state it was given: map, counters, site table
and cached leak list are unchanged (and the call always returns a state, there is no
error path). -/
theorem C6_recordDeallocation_absent (s : MemoryProfiler) (ptr : Nat)
    (h : ptr ∉ s.allocations.map Prod.fst) : recordDeallocation s ptr = s := by
  have hnone : mapFind ptr s.allocations = none := by
    rw [mapFind_eq_none_iff]
    intro e he hk
    exact h (List.mem_map.mpr ⟨e, he, hk⟩)
  simp [recordDeallocation, hnone]

theorem C6_recordDeallocation_absent_witness :
    (7 : Nat) ∉ (run [.alloc 1 100 (some "a.c") 10 "t0", .alloc 2 50 none 11 "t1",
        .dealloc 1]).allocations.map Prod.fst ∧
      recordDeallocation (run [.alloc 1 100 (some "a.c") 10 "t0", .alloc 2 50 none 11 "t1",
        .dealloc 1]) 7 =
        run [.alloc 1 100 (some "a.c") 10 "t0", .alloc 2 50 none 11 "t1", .dealloc 1] :=
  ⟨by decide, C6_recordDeallocation_absent _ 7 (by decide)⟩

/-! ## Shape of the map after an update -/

section OrderedMap

variable {K V : Type}

theorem mem_mapInsert (lt : K → K → Prop) [DecidableRel lt] (k : K) (v : V)
    (m : List (K × V)) (e : K × V) : e ∈ mapInsert lt k v m ↔ e = (k, v) ∨ e ∈ m := by
  induction m with
  | nil => simp [mapInsert]
  | cons e0 rest ih =>
    obtain ⟨k0, v0⟩ := e0
    by_cases hlt : lt k k0
    · simp [mapInsert, hlt]
    · simp only [mapInsert, hlt, if_false, List.mem_cons, ih]
      tauto

theorem keysAscending_mapModify [DecidableEq K] (lt : K → K → Prop) (k : K) (f : V → V)
    (m : List (K × V)) (hm : KeysAscending lt m) : KeysAscending lt (mapModify k f m) := by
  unfold KeysAscending at *
  have h1 : (m.map Prod.fst).Pairwise lt := by
    rw [List.pairwise_map]
    exact hm
  rw [← map_fst_mapModify k f m, List.pairwise_map] at h1
  exact h1

theorem keysAscending_mapInsert [DecidableEq K] (lt : K → K → Prop) [DecidableRel lt]
    (htrans : ∀ a b c, lt a b → lt b c → lt a c) (htri : ∀ a b, lt a b ∨ a = b ∨ lt b a)
    (k : K) (v : V) (m : List (K × V)) (hm : KeysAscending lt m)
    (hk : mapFind k m = none) : KeysAscending lt (mapInsert lt k v m) := by
  unfold KeysAscending at *
  induction m with
  | nil => simp [mapInsert]
  | cons e0 rest ih =>
    obtain ⟨k0, v0⟩ := e0
    have h0 : ¬ k0 = k := by
      intro e
      simp [mapFind, e] at hk
    have hrest : mapFind k rest = none := by
      simpa [mapFind, h0] using hk
    rw [List.pairwise_cons] at hm
    by_cases hlt : lt k k0
    · simp only [mapInsert, hlt, if_true]
      rw [List.pairwise_cons, List.pairwise_cons]
      refine ⟨?_, hm.1, hm.2⟩
      intro e he
      rcases List.mem_cons.mp he with rfl | he
      · exact hlt
      · exact htrans _ _ _ hlt (hm.1 e he)
    · simp only [mapInsert, hlt, if_false]
      rw [List.pairwise_cons]
      refine ⟨?_, ih hm.2 hrest⟩
      intro e he
      rcases (mem_mapInsert lt k v rest e).mp he with rfl | he
      · rcases htri k k0 with h | h | h
        · exact absurd h hlt
        · exact absurd h.symm h0
        · exact h
      · exact hm.1 e he

theorem keysAscending_mapUpdate [DecidableEq K] (lt : K → K → Prop) [DecidableRel lt]
    (htrans : ∀ a b c, lt a b → lt b c → lt a c) (htri : ∀ a b, lt a b ∨ a = b ∨ lt b a)
    (k : K) (dflt : V) (f : V → V) (m : List (K × V)) (hm : KeysAscending lt m) :
    KeysAscending lt (mapUpdate lt k dflt f m) := by
  unfold mapUpdate
  cases h : mapFind k m with
  | none => exact keysAscending_mapInsert lt htrans htri k (f dflt) m hm h
  | some r => exact keysAscending_mapModify lt k f m hm

theorem filter_ne_mapModify [DecidableEq K] (k : K) (f : V → V) (m : List (K × V)) :
    (mapModify k f m).filter (fun e => !decide (e.1 = k)) =
      m.filter (fun e => !decide (e.1 = k)) := by
  induction m with
  | nil => rfl
  | cons e0 rest ih =>
    obtain ⟨k0, v0⟩ := e0
    by_cases h0 : k0 = k
    · simp [mapModify, h0]
    · simp [mapModify, h0, ih]

theorem filter_ne_mapInsert [DecidableEq K] (lt : K → K → Prop) [DecidableRel lt] (k : K)
    (v : V) (m : List (K × V)) :
    (mapInsert lt k v m).filter (fun e => !decide (e.1 = k)) =
      m.filter (fun e => !decide (e.1 = k)) := by
  induction m with
  | nil => simp [mapInsert]
  | cons e0 rest ih =>
    obtain ⟨k0, v0⟩ := e0
    by_cases hlt : lt k k0
    · simp [mapInsert, hlt]
    · by_cases h0 : k0 = k
      · subst h0
        simp [mapInsert, hlt, ih]
      · simp [mapInsert, hlt, h0, ih]

theorem filter_ne_mapUpdate [DecidableEq K] (lt : K → K → Prop) [DecidableRel lt] (k : K)
    (dflt : V) (f : V → V) (m : List (K × V)) :
    (mapUpdate lt k dflt f m).filter (fun e => !decide (e.1 = k)) =
      m.filter (fun e => !decide (e.1 = k)) := by
  unfold mapUpdate
  cases h : mapFind k m with
  | none => exact filter_ne_mapInsert lt k (f dflt) m
  | some r => exact filter_ne_mapModify k f m

theorem filter_eq_of_absent [DecidableEq K] (k : K) (m : List (K × V))
    (hk : ∀ e ∈ m, e.1 ≠ k) : m.filter (fun e => decide (e.1 = k)) = [] := by
  rw [List.filter_eq_nil_iff]
  intro e he
  simpa using hk e he

theorem filter_eq_mapInsert [DecidableEq K] (lt : K → K → Prop) [DecidableRel lt] (k : K)
    (v : V) (m : List (K × V)) (hk : mapFind k m = none) :
    (mapInsert lt k v m).filter (fun e => decide (e.1 = k)) = [(k, v)] := by
  induction m with
  | nil => simp [mapInsert]
  | cons e0 rest ih =>
    obtain ⟨k0, v0⟩ := e0
    have h0 : ¬ k0 = k := by
      intro e
      simp [mapFind, e] at hk
    have hrest : mapFind k rest = none := by
      simpa [mapFind, h0] using hk
    by_cases hlt : lt k k0
    · have := filter_eq_of_absent k rest ((mapFind_eq_none_iff k rest).mp hrest)
      simp [mapInsert, hlt, h0, this]
    · simp [mapInsert, hlt, h0, ih hrest]

theorem filter_eq_mapModify [DecidableEq K] (k : K) (f : V → V) (m : List (K × V)) (r : V)
    (hnd : (m.map Prod.fst).Nodup) (hf : mapFind k m = some r) :
    (mapModify k f m).filter (fun e => decide (e.1 = k)) = [(k, f r)] := by
  induction m with
  | nil => simp [mapFind] at hf
  | cons e0 rest ih =>
    obtain ⟨k0, v0⟩ := e0
    simp only [List.map_cons, List.nodup_cons] at hnd
    by_cases h0 : k0 = k
    · subst h0
      simp [mapFind] at hf
      subst hf
      have habs : ∀ e ∈ rest, e.1 ≠ k0 := by
        intro e he hk
        exact hnd.1 (List.mem_map.mpr ⟨e, he, hk⟩)
      simp [mapModify, filter_eq_of_absent k0 rest habs]
    · simp [mapFind, h0] at hf
      simp [mapModify, h0, ih hnd.2 hf]

theorem forall_mem_mapModify [DecidableEq K] (P : K × V → Prop) (k : K) (f : V → V)
    (hf : ∀ k0 v0, P (k0, v0) → P (k0, f v0)) (m : List (K × V)) (hm : ∀ e ∈ m, P e) :
    ∀ e ∈ mapModify k f m, P e := by
  induction m with
  | nil => simp [mapModify]
  | cons e0 rest ih =>
    obtain ⟨k0, v0⟩ := e0
    intro e he
    by_cases h0 : k0 = k
    · simp only [mapModify, h0, if_true, List.mem_cons] at he
      rcases he with rfl | he
      · exact hf _ _ (by simpa [h0] using hm (k0, v0) (List.mem_cons_self _ _))
      · exact hm e (List.mem_cons_of_mem _ he)
    · simp only [mapModify, h0, if_false, List.mem_cons] at he
      rcases he with rfl | he
      · exact hm (k0, v0) (List.mem_cons_self _ _)
      · exact ih (fun e he => hm e (List.mem_cons_of_mem _ he)) e he

theorem keysAscending_nodup (lt : K → K → Prop) (hirr : ∀ a, ¬ lt a a) (m : List (K × V))
    (hm : KeysAscending lt m) : (m.map Prod.fst).Nodup := by
  unfold KeysAscending at hm
  unfold List.Nodup
  rw [List.pairwise_map]
  refine hm.imp ?_
  intro a b hab heq
  rw [heq] at hab
  exact hirr _ hab

end OrderedMap

theorem ptrLess_trans (a b c : Nat) (h1 : ptrLess a b) (h2 : ptrLess b c) : ptrLess a c :=
  Nat.lt_trans h1 h2

theorem ptrLess_tri (a b : Nat) : ptrLess a b ∨ a = b ∨ ptrLess b a :=
  Nat.lt_trichotomy a b

theorem ptrLess_irrefl (a : Nat) : ¬ ptrLess a a := Nat.lt_irrefl a

theorem strLess_iff (a b : String) : strLess a b ↔ a < b :=
  String.lt_iff_toList_lt.symm

theorem strLess_trans (a b c : String) (h1 : strLess a b) (h2 : strLess b c) :
    strLess a c := by
  rw [strLess_iff] at *
  exact lt_trans h1 h2

theorem strLess_tri (a b : String) : strLess a b ∨ a = b ∨ strLess b a := by
  simp only [strLess_iff]
  exact lt_trichotomy a b

theorem strLess_irrefl (a : String) : ¬ strLess a a := by
  rw [strLess_iff]
  exact lt_irrefl a

/-! ## Shape of reachable ledgers -/

/-- Every ledger reached from the empty one has both maps in strictly ascending key
order and each record stored under its own address. -/
theorem run_shape (calls : List Call) :
    KeysAscending ptrLess (run calls).allocations ∧
      (∀ e ∈ (run calls).allocations, e.2.address = e.1) ∧
      KeysAscending strLess (run calls).allocationSites := by
  refine run_induction
    (fun s => KeysAscending ptrLess s.allocations ∧
      (∀ e ∈ s.allocations, e.2.address = e.1) ∧ KeysAscending strLess s.allocationSites)
    ?_ ?_ calls
  · simp [MemoryProfiler.init, KeysAscending]
  · intro s c ⟨h1, h2, h3⟩
    cases c with
    | alloc ptr size file line now =>
      refine ⟨keysAscending_mapUpdate ptrLess ptrLess_trans ptrLess_tri ptr
          AllocationInfo.default _ _ h1, ?_,
        keysAscending_mapUpdate strLess strLess_trans strLess_tri (siteKey file line) 0
          _ _ h3⟩
      simp only [step]
      intro e he
      by_cases hk : e.1 = ptr
      · have hmem : e ∈ (recordAllocation s ptr size file line now).allocations.filter
            (fun e => decide (e.1 = ptr)) := by
          simp [List.mem_filter, he, hk]
        have hnd := keysAscending_nodup ptrLess ptrLess_irrefl _ h1
        simp only [recordAllocation, mapUpdate] at hmem
        cases hf : mapFind ptr s.allocations with
        | none =>
          rw [hf] at hmem
          simp only [] at hmem
          rw [filter_eq_mapInsert ptrLess ptr _ _ hf] at hmem
          simp at hmem
          subst hmem
          rfl
        | some r =>
          rw [hf] at hmem
          simp only [] at hmem
          rw [filter_eq_mapModify ptr _ _ r hnd hf] at hmem
          simp at hmem
          subst hmem
          rfl
      · have hmem : e ∈ (recordAllocation s ptr size file line now).allocations.filter
            (fun e => !decide (e.1 = ptr)) := by
          simp [List.mem_filter, he, hk]
        simp only [recordAllocation] at hmem
        rw [filter_ne_mapUpdate] at hmem
        exact h2 e (List.mem_filter.mp hmem).1
    | dealloc ptr =>
      simp only [step, recordDeallocation]
      cases hf : mapFind ptr s.allocations with
      | none => exact ⟨h1, h2, h3⟩
      | some r =>
        exact ⟨keysAscending_mapModify ptrLess _ _ _ h1,
          forall_mem_mapModify (fun (e : Nat × AllocationInfo) => e.2.address = e.1) ptr
            (fun r => { r with freed := true }) (fun _ _ h => h) _ h2, h3⟩

/-! ## The body of `recordAllocation` -/

/-- The statements of the body of `recordAllocation`, taken alone (the releases of
the heap blocks of the call's own strings, which go through `operatorDelete`, are not
among them). For every ledger state (a map with its keys in ascending order):
afterwards the entries of the map under `address` are exactly one record, with that
address, size, file (`"unknown"` for a null file), line, the current timestamp, thread
1 and `freed == false`, whatever was stored there before; the entries under every
other key are unchanged and the map is still ordered; `totalAllocations` has grown by
1 and `currentMemoryUsage` by `size` (on `size_t`, so modulo `2 ^ 64`);
`peakMemoryUsage` is the maximum of its old value and the new `currentMemoryUsage`;
the site table entry for `file:line` (0 when absent) has grown by 1 and the entries
under every other site key are unchanged; `totalDeallocations` and the cached leak
list are untouched. -/
theorem recordAllocation_body_effect (s : MemoryProfiler) (ptr size : Nat)
    (file : Option String) (line : Int) (now : String)
    (hmap : KeysAscending ptrLess s.allocations) :
    (recordAllocation s ptr size file line now).allocations.filter (fun e => e.1 = ptr) =
      [(ptr, { address := ptr, size := size, file := file.getD "unknown", line := line,
               timestamp := now, threadId := 1, freed := false })] ∧
    (recordAllocation s ptr size file line now).allocations.filter (fun e => e.1 ≠ ptr) =
      s.allocations.filter (fun e => e.1 ≠ ptr) ∧
    KeysAscending ptrLess (recordAllocation s ptr size file line now).allocations ∧
    (recordAllocation s ptr size file line now).totalAllocations =
      (s.totalAllocations + 1) % 2 ^ 64 ∧
    (recordAllocation s ptr size file line now).currentMemoryUsage =
      (s.currentMemoryUsage + size) % 2 ^ 64 ∧
    (recordAllocation s ptr size file line now).peakMemoryUsage =
      max s.peakMemoryUsage (recordAllocation s ptr size file line now).currentMemoryUsage ∧
    siteKey file line = file.getD "unknown" ++ ":" ++ toString line ∧
    mapFind (siteKey file line) (recordAllocation s ptr size file line now).allocationSites =
      some (((mapFind (siteKey file line) s.allocationSites).getD 0 + 1) % 2 ^ 64) ∧
    (recordAllocation s ptr size file line now).allocationSites.filter
        (fun e => e.1 ≠ siteKey file line) =
      s.allocationSites.filter (fun e => e.1 ≠ siteKey file line) ∧
    (recordAllocation s ptr size file line now).totalDeallocations = s.totalDeallocations ∧
    (recordAllocation s ptr size file line now).leakList = s.leakList := by
  have hfile : fileName file = file.getD "unknown" := by cases file <;> rfl
  refine ⟨?_, ?_, ?_, rfl, rfl, ?_, ?_, ?_, ?_, rfl, rfl⟩
  · have hnd := keysAscending_nodup ptrLess ptrLess_irrefl _ hmap
    simp only [recordAllocation, mapUpdate]
    cases hf : mapFind ptr s.allocations with
    | none =>
      simp only []
      rw [filter_eq_mapInsert ptrLess ptr _ _ hf]
      simp [newInfo, hfile]
    | some r =>
      simp only []
      rw [filter_eq_mapModify ptr _ _ r hnd hf]
      simp [newInfo, hfile]
  · have := filter_ne_mapUpdate ptrLess ptr AllocationInfo.default
      (fun _ => newInfo ptr size file line now) s.allocations
    simpa [recordAllocation] using this
  · exact keysAscending_mapUpdate ptrLess ptrLess_trans ptrLess_tri ptr
      AllocationInfo.default _ _ hmap
  · simp only [recordAllocation]
    split
    · rw [max_eq_right]; omega
    · rw [max_eq_left]; omega
  · simp [siteKey, hfile]
  · simp only [recordAllocation, mapFind_mapUpdate, add64, SIZE_MOD]
    simp
  · have := filter_ne_mapUpdate strLess (siteKey file line) 0 (fun c => add64 c 1)
      s.allocationSites
    simpa [recordAllocation] using this

theorem recordAllocation_body_effect_example :
    KeysAscending ptrLess
        (run [.alloc 2 100 (some "a.c") 10 "t0", .alloc 5 50 none 11 "t1"]).allocations ∧
      (recordAllocation (run [.alloc 2 100 (some "a.c") 10 "t0", .alloc 5 50 none 11 "t1"])
          2 30 (some "a.c") 10 "t2").allocations.filter (fun e => e.1 = 2) =
        [(2, { address := 2, size := 30, file := "a.c", line := 10, timestamp := "t2",
               threadId := 1, freed := false })] :=
  ⟨by unfold KeysAscending; decide,
    (recordAllocation_body_effect _ 2 30 (some "a.c") 10 "t2"
      (by unfold KeysAscending; decide)).1⟩

/-! ## C7 and C8: the leak detector -/

theorem foldl_pushIfLeak (m : List (Nat × AllocationInfo)) (acc : List AllocationInfo) :
    m.foldl pushIfLeak acc = acc ++ (m.map Prod.snd).filter (fun r => !r.freed) := by
  induction m generalizing acc with
  | nil => simp
  | cons e rest ih =>
    simp only [List.foldl_cons, ih, pushIfLeak, List.map_cons, List.filter_cons]
    cases e.2.freed <;> simp

/-- C7: for every ledger state (records stored under their own address, in a map with
ascending keys), after `detectLeaks` the leak list is the sequence of the map's
records with `freed == false` in the map's iteration order: a record is in the list
exactly when it is an unfreed record of the map, no record occurs twice, the
addresses are strictly ascending, and the outcome does not depend on what the leak
list held before. -/
theorem C7_detectLeaks_lists_unfreed (s : MemoryProfiler)
    (hasc : KeysAscending ptrLess s.allocations)
    (haddr : ∀ e ∈ s.allocations, e.2.address = e.1) :
    (detectLeaks s).leakList = (s.allocations.map Prod.snd).filter (fun r => !r.freed) ∧
    (∀ r, r ∈ (detectLeaks s).leakList ↔
      (r ∈ s.allocations.map Prod.snd ∧ r.freed = false)) ∧
    (detectLeaks s).leakList.Nodup ∧
    (detectLeaks s).leakList.Pairwise (fun a b => a.address < b.address) ∧
    (∀ old, detectLeaks { s with leakList := old } = detectLeaks s) := by
  have heq : (detectLeaks s).leakList =
      (s.allocations.map Prod.snd).filter (fun r => !r.freed) := by
    simp [detectLeaks, foldl_pushIfLeak]
  have hpw : (s.allocations.map Prod.snd).Pairwise (fun a b => a.address < b.address) := by
    rw [List.pairwise_map]
    unfold KeysAscending at hasc
    have hboth := List.Pairwise.and_mem.mp hasc
    refine hboth.imp ?_
    intro a b hab
    obtain ⟨ha, hb, hlt⟩ := hab
    rw [haddr a ha, haddr b hb]
    exact hlt
  have hpw2 : (detectLeaks s).leakList.Pairwise (fun a b => a.address < b.address) := by
    rw [heq]
    exact hpw.filter _
  refine ⟨heq, ?_, ?_, hpw2, ?_⟩
  · intro r
    rw [heq]
    simp [List.mem_filter]
  · unfold List.Nodup
    refine hpw2.imp ?_
    intro a b hab hne
    rw [hne] at hab
    exact Nat.lt_irrefl _ hab
  · intro old
    rfl

theorem C7_detectLeaks_lists_unfreed_witness :
    (KeysAscending ptrLess (run [.alloc 5 100 (some "a.c") 10 "t0", .alloc 2 50 none 11 "t1",
        .alloc 9 8 none 12 "t2", .dealloc 5]).allocations ∧
      ∀ e ∈ (run [.alloc 5 100 (some "a.c") 10 "t0", .alloc 2 50 none 11 "t1",
        .alloc 9 8 none 12 "t2", .dealloc 5]).allocations, e.2.address = e.1) ∧
    (detectLeaks (run [.alloc 5 100 (some "a.c") 10 "t0", .alloc 2 50 none 11 "t1",
        .alloc 9 8 none 12 "t2", .dealloc 5])).leakList =
      ((run [.alloc 5 100 (some "a.c") 10 "t0", .alloc 2 50 none 11 "t1",
        .alloc 9 8 none 12 "t2", .dealloc 5]).allocations.map Prod.snd).filter
          (fun r => !r.freed) :=
  ⟨⟨by unfold KeysAscending; decide, by decide⟩,
    (C7_detectLeaks_lists_unfreed _ (by unfold KeysAscending; decide) (by decide)).1⟩

/-- The statements of the body of `detectLeaks`, taken alone (the releases of the
string buffers and of the storage of the old leak list, which go through
`operatorDelete`, are not among them): applied twice they give what they give applied
once, and they leave the allocation map, the four counters and the site table as they
were. -/
theorem detectLeaks_body_idempotent (s : MemoryProfiler) :
    detectLeaks (detectLeaks s) = detectLeaks s ∧
    (detectLeaks s).allocations = s.allocations ∧
    (detectLeaks s).totalAllocations = s.totalAllocations ∧
    (detectLeaks s).totalDeallocations = s.totalDeallocations ∧
    (detectLeaks s).currentMemoryUsage = s.currentMemoryUsage ∧
    (detectLeaks s).peakMemoryUsage = s.peakMemoryUsage ∧
    (detectLeaks s).allocationSites = s.allocationSites :=
  ⟨rfl, rfl, rfl, rfl, rfl, rfl, rfl⟩

/-! ## C9 -/

/-- C9 fails as stated for large sizes: with `s1 = 2 ^ 64 - 1` and `s2 = 2` the
second allocation wraps `currentMemoryUsage` to 1, which does not exceed the peak, so
`peakMemoryUsage` stays at `2 ^ 64 - 1`; it is neither `s1 + s2` nor that sum on
`size_t`. -/
theorem C9_peak_not_sum :
    (run [.alloc 1 (2 ^ 64 - 1) (some "a.c") 10 "t0", .alloc 2 2 (some "a.c") 10 "t1",
        .dealloc 1]).peakMemoryUsage = 2 ^ 64 - 1 ∧
    (run [.alloc 1 (2 ^ 64 - 1) (some "a.c") 10 "t0", .alloc 2 2 (some "a.c") 10 "t1",
        .dealloc 1]).peakMemoryUsage ≠ (2 ^ 64 - 1) + 2 ∧
    (run [.alloc 1 (2 ^ 64 - 1) (some "a.c") 10 "t0", .alloc 2 2 (some "a.c") 10 "t1",
        .dealloc 1]).peakMemoryUsage ≠ add64 (2 ^ 64 - 1) 2 := by
  decide

/-- C9 (amended): starting from the empty ledger, for any two distinct addresses `a1`
and `a2` and sizes `s1`, `s2` with `s1 + s2 < 2 ^ 64` (in particular 100 and 50):
allocating `s1` bytes at `a1` from site a.c line 10, then `s2` bytes at `a2` from the
same site, then freeing `a1`, gives `currentMemoryUsage == s2`,
`peakMemoryUsage == s1 + s2`, site table entry `"a.c:10"` equal to 2, and `detectLeaks`
yields exactly one record, the one of `s2` bytes at `a2`. -/
theorem C9_scenario (a1 a2 s1 s2 : Nat) (t1 t2 : String) (hne : a1 ≠ a2)
    (hsum : s1 + s2 < 2 ^ 64) :
    (run [.alloc a1 s1 (some "a.c") 10 t1, .alloc a2 s2 (some "a.c") 10 t2,
        .dealloc a1]).currentMemoryUsage = s2 ∧
    (run [.alloc a1 s1 (some "a.c") 10 t1, .alloc a2 s2 (some "a.c") 10 t2,
        .dealloc a1]).peakMemoryUsage = s1 + s2 ∧
    mapFind "a.c:10" (run [.alloc a1 s1 (some "a.c") 10 t1, .alloc a2 s2 (some "a.c") 10 t2,
        .dealloc a1]).allocationSites = some 2 ∧
    (detectLeaks (run [.alloc a1 s1 (some "a.c") 10 t1, .alloc a2 s2 (some "a.c") 10 t2,
        .dealloc a1])).leakList =
      [{ address := a2, size := s2, file := "a.c", line := 10, timestamp := t2,
         threadId := 1, freed := false }] := by
  have hsite : siteKey (some "a.c") 10 = "a.c:10" := by decide
  have hne2 : ¬ a2 = a1 := fun h => hne h.symm
  have hM : SIZE_MOD = 2 ^ 64 := rfl
  have e1 : add64 0 s1 = s1 := by
    unfold add64; rw [hM]; omega
  have e2 : add64 s1 s2 = s1 + s2 := by
    unfold add64; rw [hM]; omega
  have e3 : sub64 (s1 + s2) s1 = s2 := by
    unfold sub64; rw [hM]; omega
  rcases Nat.lt_or_gt_of_ne hne with hlt | hgt
  · have hnlt : ¬ a2 < a1 := by omega
    simp [run, step, recordAllocation, recordDeallocation, detectLeaks, mapUpdate, mapFind,
      mapInsert, mapModify, pushIfLeak, newInfo, fileName, hsite, hne, hne2, ptrLess, hnlt,
      MemoryProfiler.init, e1, e2, e3]
    refine ⟨?_, by decide⟩
    intro h
    split at h <;> split <;> omega
  · simp [run, step, recordAllocation, recordDeallocation, detectLeaks, mapUpdate, mapFind,
      mapInsert, mapModify, pushIfLeak, newInfo, fileName, hsite, hne, hne2, ptrLess, hgt,
      MemoryProfiler.init, e1, e2, e3]
    refine ⟨?_, by decide⟩
    intro h
    split at h <;> split <;> omega

theorem C9_scenario_witness :
    ((1 : Nat) ≠ 2 ∧ 100 + 50 < 2 ^ 64) ∧
    (run [.alloc 1 100 (some "a.c") 10 "t1", .alloc 2 50 (some "a.c") 10 "t2",
        .dealloc 1]).currentMemoryUsage = 50 ∧
    (run [.alloc 1 100 (some "a.c") 10 "t1", .alloc 2 50 (some "a.c") 10 "t2",
        .dealloc 1]).peakMemoryUsage = 100 + 50 ∧
    mapFind "a.c:10" (run [.alloc 1 100 (some "a.c") 10 "t1",
        .alloc 2 50 (some "a.c") 10 "t2", .dealloc 1]).allocationSites = some 2 ∧
    (detectLeaks (run [.alloc 1 100 (some "a.c") 10 "t1", .alloc 2 50 (some "a.c") 10 "t2",
        .dealloc 1])).leakList =
      [{ address := 2, size := 50, file := "a.c", line := 10, timestamp := "t2",
         threadId := 1, freed := false }] :=
  ⟨⟨by decide, by decide⟩, C9_scenario 1 2 100 50 "t1" "t2" (by decide) (by decide)⟩

/-! ## C10: the exchange sort of the site ranking -/

theorem exchangeStep_append (pre : List (String × Nat)) (x y : String × Nat)
    (rest : List (String × Nat)) :
    exchangeStep (pre ++ x :: y :: rest) pre.length =
      pre ++ (if x.2 < y.2 then y :: x :: rest else x :: y :: rest) := by
  unfold exchangeStep
  have h1 : (pre ++ x :: y :: rest)[pre.length]? = some x := by
    rw [List.getElem?_append_right (le_refl _)]
    simp
  have h2 : (pre ++ x :: y :: rest)[pre.length + 1]? = some y := by
    rw [List.getElem?_append_right (by omega)]
    simp
  rw [h1, h2]
  simp only []
  by_cases hlt : x.2 < y.2
  · simp only [hlt, if_true]
    simp [List.set_append]
  · simp only [hlt, if_false]

theorem exchangeStep_short (a : List (String × Nat)) (j : Nat) (h : a.length ≤ j + 1) :
    exchangeStep a j = a := by
  unfold exchangeStep
  have h2 : a[j + 1]? = none := List.getElem?_eq_none (by omega)
  rw [h2]
  cases a[j]? <;> rfl

theorem foldl_exchangeStep_short (n : Nat) (a : List (String × Nat)) (j : Nat)
    (h : a.length ≤ j + 1) : (List.range' j n).foldl exchangeStep a = a := by
  induction n generalizing j with
  | zero => simp
  | succ n ih =>
    simp only [List.range'_succ, List.foldl_cons]
    rw [exchangeStep_short a j h]
    exact ih (j + 1) (by omega)

theorem bubbleN_zero (l : List (String × Nat)) : bubbleN 0 l = l := by
  unfold bubbleN
  rfl

theorem bubbleN_short (n : Nat) (l : List (String × Nat)) (h : l.length ≤ 1) :
    bubbleN n l = l := by
  match n, l, h with
  | 0, l, _ => cases l <;> simp [bubbleN]
  | n + 1, [], _ => simp [bubbleN]
  | n + 1, [x], _ => simp [bubbleN]

theorem foldl_exchangeStep_eq (n : Nat) (pre l : List (String × Nat)) :
    (List.range' pre.length n).foldl exchangeStep (pre ++ l) = pre ++ bubbleN n l := by
  induction n generalizing pre l with
  | zero => simp [bubbleN_zero]
  | succ n ih =>
    match l with
    | [] =>
      rw [foldl_exchangeStep_short _ _ _ (by simp), bubbleN_short _ _ (by simp)]
    | [x] =>
      rw [foldl_exchangeStep_short _ _ _ (by simp), bubbleN_short _ _ (by simp)]
    | x :: y :: rest =>
      simp only [List.range'_succ, List.foldl_cons]
      rw [exchangeStep_append]
      by_cases hlt : x.2 < y.2
      · simp only [hlt, if_true, bubbleN]
        have := ih (pre ++ [y]) (x :: rest)
        simp only [List.length_append, List.length_singleton, List.append_assoc,
          List.singleton_append] at this
        exact this
      · simp only [hlt, if_false, bubbleN]
        have := ih (pre ++ [x]) (y :: rest)
        simp only [List.length_append, List.length_singleton, List.append_assoc,
          List.singleton_append] at this
        exact this

theorem innerLoop_eq_bubbleN (a : List (String × Nat)) (i : Nat) :
    innerLoop a i = bubbleN (a.length - 1 - i) a := by
  unfold innerLoop
  rw [List.range_eq_range']
  have := foldl_exchangeStep_eq (a.length - 1 - i) [] a
  simpa using this

theorem bubbleN_perm (n : Nat) (l : List (String × Nat)) : (bubbleN n l).Perm l := by
  induction n generalizing l with
  | zero => simp [bubbleN_zero]
  | succ n ih =>
    match l with
    | [] => simp [bubbleN]
    | [x] => simp [bubbleN]
    | x :: y :: rest =>
      by_cases hlt : x.2 < y.2
      · simp only [bubbleN, hlt, if_true]
        exact ((ih (x :: rest)).cons y).trans (List.Perm.swap x y rest)
      · simp only [bubbleN, hlt, if_false]
        exact (ih (y :: rest)).cons x

theorem bubbleN_append (n : Nat) (l r : List (String × Nat)) (h : n < l.length) :
    bubbleN n (l ++ r) = bubbleN n l ++ r := by
  induction n generalizing l with
  | zero => simp [bubbleN_zero]
  | succ n ih =>
    match l, h with
    | [x], h => simp at h
    | x :: y :: rest, h =>
      have hlen : n < (x :: rest).length := by simp at h ⊢; omega
      have hlen2 : n < (y :: rest).length := by simp at h ⊢; omega
      by_cases hlt : x.2 < y.2
      · have := ih (x :: rest) hlen
        simp only [List.cons_append] at this
        simp [bubbleN, hlt, this]
      · have := ih (y :: rest) hlen2
        simp only [List.cons_append] at this
        simp [bubbleN, hlt, this]

/-- One pass over a list of `n + 1` entries leaves an entry of least count last. -/
theorem bubbleN_last (n : Nat) (l : List (String × Nat)) (h : l.length = n + 1) :
    ∃ front m, bubbleN n l = front ++ [m] ∧ ∀ z ∈ l, m.2 ≤ z.2 := by
  induction n generalizing l with
  | zero =>
    match l, h with
    | [x], _ => exact ⟨[], x, by simp [bubbleN], by simp⟩
  | succ n ih =>
    match l, h with
    | x :: y :: rest, h =>
      by_cases hlt : x.2 < y.2
      · obtain ⟨front, m, hm, hmin⟩ := ih (x :: rest) (by simp at h ⊢; omega)
        refine ⟨y :: front, m, by simp [bubbleN, hlt, hm], ?_⟩
        intro z hz
        have hx := hmin x (List.mem_cons_self _ _)
        rcases List.mem_cons.mp hz with rfl | hz
        · exact hx
        · rcases List.mem_cons.mp hz with rfl | hz
          · omega
          · exact hmin z (List.mem_cons_of_mem _ hz)
      · obtain ⟨front, m, hm, hmin⟩ := ih (y :: rest) (by simp at h ⊢; omega)
        refine ⟨x :: front, m, by simp [bubbleN, hlt, hm], ?_⟩
        intro z hz
        have hy := hmin y (List.mem_cons_self _ _)
        rcases List.mem_cons.mp hz with rfl | hz
        · omega
        · exact hmin z hz

/-- An exchange never reorders two entries of equal count. -/
theorem bubbleN_ties (n : Nat) (l : List (String × Nat))
    (h : l.Pairwise (fun x y => x.2 = y.2 → strLess x.1 y.1)) :
    (bubbleN n l).Pairwise (fun x y => x.2 = y.2 → strLess x.1 y.1) := by
  induction n generalizing l with
  | zero =>
    rw [bubbleN_zero]
    exact h
  | succ n ih =>
    match l, h with
    | [], _ => simp [bubbleN]
    | [x], _ => simp [bubbleN]
    | x :: y :: rest, h =>
      rw [List.pairwise_cons, List.pairwise_cons] at h
      obtain ⟨hx, hy, hrest⟩ := h
      by_cases hlt : x.2 < y.2
      · simp only [bubbleN, hlt, if_true]
        rw [List.pairwise_cons]
        refine ⟨?_, ih (x :: rest) ?_⟩
        · intro z hz
          have hz2 := (bubbleN_perm n (x :: rest)).subset hz
          rcases List.mem_cons.mp hz2 with rfl | hz2
          · intro heq
            omega
          · exact hy z hz2
        · rw [List.pairwise_cons]
          exact ⟨fun z hz => hx z (List.mem_cons_of_mem _ hz), hrest⟩
      · simp only [bubbleN, hlt, if_false]
        rw [List.pairwise_cons]
        refine ⟨?_, ih (y :: rest) ?_⟩
        · intro z hz
          exact hx z ((bubbleN_perm n (y :: rest)).subset hz)
        · rw [List.pairwise_cons]
          exact ⟨hy, hrest⟩

theorem innerLoop_perm (a : List (String × Nat)) (i : Nat) : (innerLoop a i).Perm a := by
  rw [innerLoop_eq_bubbleN]
  exact bubbleN_perm _ _

theorem foldl_innerLoop_perm (sites : List (String × Nat)) (is : List Nat) :
    (is.foldl innerLoop sites).Perm sites := by
  induction is generalizing sites with
  | nil => simp
  | cons i rest ih =>
    simp only [List.foldl_cons]
    exact (ih (innerLoop sites i)).trans (innerLoop_perm sites i)

theorem foldl_innerLoop_ties (sites : List (String × Nat)) (is : List Nat)
    (h : sites.Pairwise (fun x y => x.2 = y.2 → strLess x.1 y.1)) :
    (is.foldl innerLoop sites).Pairwise (fun x y => x.2 = y.2 → strLess x.1 y.1) := by
  induction is generalizing sites with
  | nil => simpa using h
  | cons i rest ih =>
    simp only [List.foldl_cons]
    apply ih
    rw [innerLoop_eq_bubbleN]
    exact bubbleN_ties _ _ h

/-- After `i` rounds of the outer loop the last `i` slots hold, in descending order of
count, entries that no entry in front of them undercuts. -/
theorem sort_rounds (sites : List (String × Nat)) (i : Nat) (hi : i ≤ sites.length) :
    ∃ front back, (List.range i).foldl innerLoop sites = front ++ back ∧ back.length = i ∧
      back.Pairwise (fun x y => y.2 ≤ x.2) ∧ ∀ x ∈ front, ∀ y ∈ back, y.2 ≤ x.2 := by
  induction i with
  | zero => exact ⟨sites, [], by simp, rfl, List.Pairwise.nil, by simp⟩
  | succ i ih =>
    obtain ⟨front, back, heq, hlen, hsorted, hcross⟩ := ih (by omega)
    have hperm := foldl_innerLoop_perm sites (List.range i)
    have hlentot : (front ++ back).length = sites.length := by
      rw [← heq]
      exact hperm.length_eq
    have hfront : front.length = (sites.length - 1 - i) + 1 := by
      simp only [List.length_append] at hlentot
      omega
    rw [List.range_succ, List.foldl_append, List.foldl_cons, List.foldl_nil, heq,
      innerLoop_eq_bubbleN, hlentot, bubbleN_append _ _ _ (by omega)]
    obtain ⟨front2, m, hm, hmin⟩ := bubbleN_last _ front hfront
    have hsub : ∀ x ∈ front2, x ∈ front := by
      intro x hx
      have : x ∈ bubbleN (sites.length - 1 - i) front := by
        rw [hm]
        exact List.mem_append_left _ hx
      exact (bubbleN_perm _ front).subset this
    have hmfront : m ∈ front := by
      have : m ∈ bubbleN (sites.length - 1 - i) front := by
        rw [hm]
        simp
      exact (bubbleN_perm _ front).subset this
    refine ⟨front2, m :: back, by simp [hm], by simp [hlen], ?_, ?_⟩
    · rw [List.pairwise_cons]
      exact ⟨fun y hy => hcross m hmfront y hy, hsorted⟩
    · intro x hx y hy
      rcases List.mem_cons.mp hy with rfl | hy
      · exact hmin x (hsub x hx)
      · exact hcross x (hsub x hx) y hy

theorem sortSites_descending (sites : List (String × Nat)) :
    (sortSites sites).Pairwise (fun x y => y.2 ≤ x.2) := by
  obtain ⟨front, back, heq, hlen, hsorted, _⟩ := sort_rounds sites sites.length (le_refl _)
  have hperm := foldl_innerLoop_perm sites (List.range sites.length)
  have hfront : front = [] := by
    have := hperm.length_eq
    rw [heq, List.length_append] at this
    exact List.length_eq_zero.mp (by omega)
  unfold sortSites
  rw [heq, hfront]
  simpa using hsorted

theorem filterMap_range_getElem? (l : List (String × Nat)) (k : Nat) :
    (List.range k).filterMap (fun i => l[i]?) = l.take k := by
  induction k with
  | zero => simp
  | succ k ih =>
    rw [List.range_succ, List.filterMap_append, ih, List.take_succ]
    cases h : l[k]? <;> simp [List.filterMap_cons, h]

/-- C10: for every site table (a `std::map`, keys strictly ascending), the vector
produced by the exchange sort of the report is a permutation of the table's entries
(nothing lost, nothing duplicated) in which every entry comes before every entry of
smaller count and, among entries of equal count, before every entry of larger site
key; the rows displayed are its first `min(10, n)` entries. -/
theorem C10_site_ranking (sites : List (String × Nat))
    (hmap : KeysAscending strLess sites) :
    (sortSites sites).Perm sites ∧
    (sortSites sites).Pairwise rankBefore ∧
    topSites sites = (sortSites sites).take (min 10 sites.length) ∧
    (topSites sites).length = min 10 sites.length := by
  have hperm : (sortSites sites).Perm sites := foldl_innerLoop_perm sites _
  have hties : (sortSites sites).Pairwise (fun x y => x.2 = y.2 → strLess x.1 y.1) := by
    apply foldl_innerLoop_ties
    unfold KeysAscending at hmap
    refine hmap.imp ?_
    intro x y h _
    exact h
  have hrank : (sortSites sites).Pairwise rankBefore := by
    refine ((sortSites_descending sites).and hties).imp ?_
    intro x y h
    unfold rankBefore
    rcases Nat.lt_or_ge y.2 x.2 with hlt | hge
    · exact Or.inl hlt
    · have heq : x.2 = y.2 := by omega
      exact Or.inr ⟨heq, h.2 heq⟩
  have htop : topSites sites = (sortSites sites).take (min 10 sites.length) := by
    unfold topSites displayCount
    rw [filterMap_range_getElem?, hperm.length_eq]
    congr 1
    split <;> omega
  refine ⟨hperm, hrank, htop, ?_⟩
  rw [htop, List.length_take, hperm.length_eq]
  omega

theorem C10_site_ranking_witness :
    KeysAscending strLess [("a.c:10", 1), ("a.c:7", 3), ("b.c:2", 1), ("main.c:5", 3)] ∧
      (sortSites [("a.c:10", 1), ("a.c:7", 3), ("b.c:2", 1), ("main.c:5", 3)]).Pairwise
        rankBefore :=
  ⟨by unfold KeysAscending; decide,
    (C10_site_ranking [("a.c:10", 1), ("a.c:7", 3), ("b.c:2", 1), ("main.c:5", 3)]
      (by unfold KeysAscending; decide)).2.1⟩

/-! ## The injector: reading loop -/

theorem instrumented_ne (filename : String) : "instrumented_" ++ filename ≠ filename := by
  intro h
  have hlen := congrArg String.length h
  rw [String.length_append] at hlen
  have h13 : "instrumented_".length = 13 := by decide
  omega

theorem readLoop_no_marker (filename : String) (lines : List String) (st : ReadState)
    (hno : ∀ l ∈ lines, containsText l includeLine = false) :
    readLoop filename st lines =
      { st with hasMain := st.hasMain || lines.any (fun l => containsText l entrySignature)
                fileContent := st.fileContent ++ lines } := by
  induction lines generalizing st with
  | nil => simp [readLoop]
  | cons l rest ih =>
    have hl : containsText l includeLine = false := hno l (List.mem_cons_self _ _)
    have hrest : ∀ l ∈ rest, containsText l includeLine = false :=
      fun x hx => hno x (List.mem_cons_of_mem _ hx)
    simp only [readLoop, hl, Bool.false_eq_true, if_false]
    rw [ih _ hrest]
    simp [Bool.or_assoc]

theorem readLoop_marker (filename : String) (lines : List String) (st : ReadState)
    (hm : ∃ l ∈ lines, containsText l includeLine = true) :
    (readLoop filename st lines).instrumentedFile = filename ∧
      (readLoop filename st lines).hasMain = true ∧
      (readLoop filename st lines).removed = true := by
  induction lines generalizing st with
  | nil =>
    obtain ⟨l, hl, _⟩ := hm
    simp at hl
  | cons l rest ih =>
    by_cases hl : containsText l includeLine = true
    · simp [readLoop, hl]
    · obtain ⟨x, hx, hxm⟩ := hm
      have hx2 : x ∈ rest := by
        rcases List.mem_cons.mp hx with rfl | h
        · exact absurd hxm hl
        · exact h
      simp only [readLoop, hl, if_false]
      exact ih _ ⟨x, hx2, hxm⟩

/-- The injector on a source no line of which holds the marker: the copy is the
rewrite of all the lines, and `hasMain` tells whether some line holds the entry
signature. -/
theorem inject_no_marker (filename : String) (lines : List String)
    (hno : ∀ l ∈ lines, containsText l includeLine = false) :
    inject filename lines =
      { instrumentedFile := "instrumented_" ++ filename
        copy := some (rewrite lines)
        outcome :=
          if lines.any (fun l => containsText l entrySignature) then
            Outcome.compile ("instrumented_" ++ filename)
          else Outcome.noEntryPoint
        cleanupRemovesCopy := true } := by
  unfold inject
  rw [readLoop_no_marker filename lines _ hno]
  have hne := instrumented_ne filename
  cases hany : lines.any (fun l => containsText l entrySignature) <;> simp [hne, hany]

/-! ## C13 -/

/-- C13: for every target source in which some line contains the marker
`#include "memory_profiler.h"`, the injector performs no rewrite: the instrumented-file
path equals the original path, the instrumented copy is removed and the final clean-up
does not touch it, and the stage goes on to compilation of the original file, so
`NoEntryPointError` is not raised, whether or not a line holds the entry signature. -/
theorem C13_marker_fast_path (filename : String) (lines : List String)
    (hm : ∃ l ∈ lines, containsText l includeLine = true) :
    (inject filename lines).instrumentedFile = filename ∧
    (inject filename lines).copy = none ∧
    (inject filename lines).cleanupRemovesCopy = false ∧
    (inject filename lines).outcome = Outcome.compile filename ∧
    (inject filename lines).outcome ≠ Outcome.noEntryPoint ∧
    (inject filename lines).outcome.exitStatus = none := by
  obtain ⟨h1, h2, h3⟩ := readLoop_marker filename lines
    { instrumentedFile := "instrumented_" ++ filename, hasMain := false, fileContent := [],
      removed := false } hm
  have hout : (inject filename lines).outcome = Outcome.compile filename := by
    simp [inject, h1, h2]
  refine ⟨by simp [inject, h1], by simp [inject, h1, h3], by simp [inject, h1], hout, ?_, ?_⟩
  · rw [hout]
    simp
  · rw [hout]
    rfl

theorem C13_marker_fast_path_witness :
    (∃ l ∈ ["#include <iostream>", "#include \"memory_profiler.h\"", "void f();"],
        containsText l includeLine = true) ∧
      (inject "prog.cpp" ["#include <iostream>", "#include \"memory_profiler.h\"",
        "void f();"]).instrumentedFile = "prog.cpp" :=
  ⟨by decide,
    (C13_marker_fast_path "prog.cpp" ["#include <iostream>", "#include \"memory_profiler.h\"",
      "void f();"] (by decide)).1⟩

/-! ## C14 -/

/-- C14: for every target source no line of which contains the marker: if no line
contains the entry signature `int main` the injector stage ends with
`NoEntryPointError`, exit status 1, before compilation; if some line contains it, the
stage does not raise that error and goes on to compile the instrumented copy. -/
theorem C14_no_entry_point (filename : String) (lines : List String)
    (hno : ∀ l ∈ lines, containsText l includeLine = false) :
    ((∀ l ∈ lines, containsText l entrySignature = false) →
      (inject filename lines).outcome = Outcome.noEntryPoint ∧
      (inject filename lines).outcome.exitStatus = some 1) ∧
    ((∃ l ∈ lines, containsText l entrySignature = true) →
      (inject filename lines).outcome = Outcome.compile ("instrumented_" ++ filename) ∧
      (inject filename lines).outcome ≠ Outcome.noEntryPoint) := by
  rw [inject_no_marker filename lines hno]
  constructor
  · intro h
    have hany : lines.any (fun l => containsText l entrySignature) = false := by
      rw [List.any_eq_false]
      intro x hx
      simp [h x hx]
    simp [hany, Outcome.exitStatus]
  · intro h
    have hany : lines.any (fun l => containsText l entrySignature) = true :=
      List.any_eq_true.mpr h
    simp [hany]

theorem C14_no_entry_point_witness :
    (∀ l ∈ ["#include <cstdio>", "void f() \x7b", "\x7d"],
        containsText l includeLine = false) ∧
      (∀ l ∈ ["#include <cstdio>", "void f() \x7b", "\x7d"],
        containsText l entrySignature = false) ∧
      (inject "lib.cpp" ["#include <cstdio>", "void f() \x7b", "\x7d"]).outcome =
        Outcome.noEntryPoint :=
  ⟨by decide, by decide,
    ((C14_no_entry_point "lib.cpp" ["#include <cstdio>", "void f() \x7b", "\x7d"]
      (by decide)).1 (by decide)).1⟩

/-! ## The injector: rewriting loop -/

theorem scanFrom_append (st : Scan) (a b : List String) :
    scanFrom st (a ++ b) = scanFrom (scanFrom st a) b := by
  simp [scanFrom, List.foldl_append]

theorem scanFrom_cons (st : Scan) (l : String) (rest : List String) :
    scanFrom st (l :: rest) = scanFrom (scanLine st l) rest := rfl

theorem emitFrom_append (st : Scan) (a b : List String) :
    emitFrom st (a ++ b) = emitFrom st a ++ emitFrom (scanFrom st a) b := by
  induction a generalizing st with
  | nil => simp [emitFrom, scanFrom]
  | cons l rest ih =>
    rw [List.cons_append]
    simp only [emitFrom, scanFrom_cons, List.append_assoc]
    rw [ih]

/-- Lines none of which qualifies are copied as they are. -/
theorem emitFrom_quiet (st : Scan) (lines : List String) (hq : quietFrom st lines = true) :
    emitFrom st lines = lines := by
  induction lines generalizing st with
  | nil => rfl
  | cons l rest ih =>
    simp only [quietFrom, Bool.and_eq_true, Bool.not_eq_true'] at hq
    simp [emitFrom, emitLine, hq.1, ih _ hq.2]

theorem quietFrom_of_nested (st : Scan) (lines : List String)
    (hn : nestedFrom st lines = true) : quietFrom st lines = true := by
  induction lines generalizing st with
  | nil => rfl
  | cons l rest ih =>
    simp only [nestedFrom, Bool.and_eq_true, decide_eq_true_eq] at hn
    have hne : ¬ (scanLine st l).braceCount = 1 := by omega
    simp [quietFrom, qualifies, hne, ih _ hn.2]

theorem flatMap_singleton_snd (chunks : List (Bool × String)) :
    chunks.flatMap (fun c => [c.2]) = chunks.map Prod.snd := by
  induction chunks with
  | nil => rfl
  | cons c rest ih => simp [List.flatMap_cons, ih]

theorem emitFrom_chunks (st : Scan) (lines : List String) :
    ∃ chunks : List (Bool × String), chunks.map Prod.snd = lines ∧
      emitFrom st lines =
        chunks.flatMap (fun c => if c.1 then reportBlock ++ [c.2] else [c.2]) := by
  induction lines generalizing st with
  | nil => exact ⟨[], rfl, rfl⟩
  | cons l rest ih =>
    obtain ⟨chunks, hmap, hemit⟩ := ih (scanLine st l)
    refine ⟨(qualifies (scanLine st l) l, l) :: chunks, by simp [hmap], ?_⟩
    simp only [emitFrom, emitLine, hemit, List.flatMap_cons]

/-! ## C19 -/

/-- C19 fails as stated: the instrumented copy is opened under the name
`"instrumented_"` followed by the whole file name, and the stream is never tested. For
the source `sub/prog.cpp` the path is `instrumented_sub/prog.cpp`; where that
directory does not exist the stream does not open and no instrumented output is
written at all. -/
theorem C19_no_copy_when_not_opened :
    (∀ l ∈ ["int main() \x7b", "    return 0;", "\x7d"],
        containsText l includeLine = false) ∧
    (inject "sub/prog.cpp" ["int main() \x7b", "    return 0;", "\x7d"]).instrumentedFile =
      "instrumented_sub/prog.cpp" ∧
    instrumentedOnDisk false "sub/prog.cpp" ["int main() \x7b", "    return 0;", "\x7d"] =
      none := by
  decide

/-- C19 (amended): for every target source no line of which contains the marker, when
the instrumented copy can be opened for writing it is the line
`#include "memory_profiler.h"` followed by the input lines, unmodified and in their
order, each preceded either by nothing or by one whole copy of the report block: the
file is the include line followed by the concatenation of one chunk per input line,
and dropping the include line and the blocks (keeping the line of each chunk) gives
back the input lines. When the copy cannot be opened, nothing is written. -/
theorem C19_copy_is_input_with_blocks (opened : Bool) (filename : String)
    (lines : List String) (hno : ∀ l ∈ lines, containsText l includeLine = false) :
    ∃ chunks : List (Bool × String),
      chunks.map Prod.snd = lines ∧
      instrumentedOnDisk opened filename lines =
        (if opened then
          some (includeLine ::
            chunks.flatMap (fun c => if c.1 then reportBlock ++ [c.2] else [c.2]))
        else none) ∧
      chunks.flatMap (fun c => [c.2]) = lines := by
  obtain ⟨chunks, hmap, hemit⟩ := emitFrom_chunks Scan.start lines
  refine ⟨chunks, hmap, ?_, ?_⟩
  · unfold instrumentedOnDisk
    rw [inject_no_marker filename lines hno]
    simp [rewrite, hemit]
  · rw [flatMap_singleton_snd, hmap]

theorem C19_copy_is_input_with_blocks_witness :
    (∀ l ∈ ["int main() \x7b", "    return 0;", "\x7d"],
        containsText l includeLine = false) ∧
      ∃ chunks : List (Bool × String),
        chunks.map Prod.snd = ["int main() \x7b", "    return 0;", "\x7d"] ∧
        instrumentedOnDisk true "a.cpp" ["int main() \x7b", "    return 0;", "\x7d"] =
          (if true then
            some (includeLine ::
              chunks.flatMap (fun c => if c.1 then reportBlock ++ [c.2] else [c.2]))
          else none) ∧
        chunks.flatMap (fun c => [c.2]) = ["int main() \x7b", "    return 0;", "\x7d"] :=
  ⟨by decide,
    C19_copy_is_input_with_blocks true "a.cpp" ["int main() \x7b", "    return 0;", "\x7d"]
      (by decide)⟩

theorem scanLine_inMain (st : Scan) (l : String) (h : st.inMain = true) :
    scanLine st l = { inMain := true, braceCount := countBraces st.braceCount l.toList } := by
  simp [scanLine, h]

theorem scanFrom_inMain (st : Scan) (lines : List String) (h : st.inMain = true) :
    (scanFrom st lines).inMain = true := by
  induction lines generalizing st with
  | nil => simpa [scanFrom] using h
  | cons l rest ih =>
    rw [scanFrom_cons]
    apply ih
    rw [scanLine_inMain st l h]

/-! ## C11 -/

/-- C11 (the code at the failing input): in a source whose entry function is followed
by the definition of another function, the report block is written before the
`return` line of the entry function and again before the `return` line of the
function after it: `inMain` is never reset, and the brace count is back at 1 inside
the later function. -/
theorem C11_block_before_later_return :
    (inject "prog.cpp"
      ["int helper();",
       "int main() \x7b",
       "    return helper();",
       "\x7d",
       "int helper() \x7b",
       "    return 1;",
       "\x7d"]).copy =
      some (["#include \"memory_profiler.h\"",
        "int helper();",
        "int main() \x7b"] ++ reportBlock ++
       ["    return helper();",
        "\x7d",
        "int helper() \x7b"] ++ reportBlock ++
       ["    return 1;",
        "\x7d"]) := by
  decide

/-! ## C12 -/

/-- C12 fails as stated: an `if` block written on one line, braces and `return`
included, leaves the brace count at 1 at the end of the line, so the report block is
written before the line that holds the `if` as well as before the top-level
`return`. -/
theorem C12_block_before_one_line_if :
    (inject "prog.cpp"
      ["int main(int argc, char** argv) \x7b",
       "    if (argc > 1) \x7b return 1; \x7d",
       "    return 0;",
       "\x7d"]).copy =
      some (["#include \"memory_profiler.h\"",
        "int main(int argc, char** argv) \x7b"] ++ reportBlock ++
       ["    if (argc > 1) \x7b return 1; \x7d"] ++ reportBlock ++
       ["    return 0;",
        "\x7d"]) := by
  decide

/-- C12 (amended): for every program in which, at brace depth 1 of the entry function,
a line opens a nested block and leaves it open (depth 2 or more at the end of the
line), every line inside the block ends at depth 2 or more, the line closing the block
brings the depth back to 1 and does not contain `return`, and, after any number of
further lines that get no block and leave the depth at 1, a line contains `return` and
stays at depth 1: all these lines are written unchanged with the report block before
that top-level `return` line only, none before the line that opens the block, before
a line inside it (a `return` there included), before the line that closes it or before
a line between it and the top-level `return`. -/
theorem C12_nested_return_skipped (pre : List String) (ifOpen : String)
    (inner : List String) (ifClose : String) (between : List String) (ret : String)
    (post : List String)
    (hpre : scanFrom Scan.start pre = { inMain := true, braceCount := 1 })
    (hopen : 2 ≤ countBraces 1 ifOpen.toList)
    (hinner : nestedFrom { inMain := true, braceCount := countBraces 1 ifOpen.toList }
      inner = true)
    (hclose : countBraces
      (scanFrom { inMain := true, braceCount := countBraces 1 ifOpen.toList }
        inner).braceCount ifClose.toList = 1)
    (hcloseText : containsText ifClose "return" = false)
    (hbetween : quietFrom { inMain := true, braceCount := 1 } between = true)
    (hdepth : scanFrom { inMain := true, braceCount := 1 } between =
      { inMain := true, braceCount := 1 })
    (hret : countBraces 1 ret.toList = 1)
    (hretText : containsText ret "return" = true) :
    rewrite (pre ++ (ifOpen :: (inner ++ (ifClose :: (between ++ (ret :: post)))))) =
      includeLine :: (emitFrom Scan.start pre ++
        (ifOpen :: (inner ++ (ifClose :: (between ++ (reportBlock ++
          (ret :: emitFrom { inMain := true, braceCount := 1 } post))))))) := by
  have hquiet : emitFrom { inMain := true, braceCount := countBraces 1 ifOpen.toList }
      inner = inner :=
    emitFrom_quiet _ _ (quietFrom_of_nested _ _ hinner)
  have hquiet2 : emitFrom { inMain := true, braceCount := 1 } between = between :=
    emitFrom_quiet _ _ hbetween
  have hin : (scanFrom { inMain := true, braceCount := countBraces 1 ifOpen.toList }
      inner).inMain = true :=
    scanFrom_inMain _ _ rfl
  have hopen2 : scanLine { inMain := true, braceCount := 1 } ifOpen =
      { inMain := true, braceCount := countBraces 1 ifOpen.toList } :=
    scanLine_inMain _ _ rfl
  have hopenq : qualifies { inMain := true, braceCount := countBraces 1 ifOpen.toList }
      ifOpen = false := by
    have hne : ¬ countBraces 1 ifOpen.toList = 1 := by omega
    simp only [qualifies, decide_eq_false hne, Bool.and_false, Bool.false_and]
  have hclose2 : scanLine
      (scanFrom { inMain := true, braceCount := countBraces 1 ifOpen.toList } inner)
      ifClose = { inMain := true, braceCount := 1 } := by
    rw [scanLine_inMain _ _ hin, hclose]
  have hret2 : scanLine { inMain := true, braceCount := 1 } ret =
      { inMain := true, braceCount := 1 } := by
    rw [scanLine_inMain _ _ rfl, hret]
  unfold rewrite
  rw [emitFrom_append, hpre]
  simp only [emitFrom, emitLine, hopen2, hopenq]
  rw [emitFrom_append, hquiet]
  simp only [emitFrom, emitLine, hclose2]
  rw [emitFrom_append, hquiet2, hdepth]
  simp only [emitFrom, emitLine, hret2]
  simp [qualifies, hcloseText, hretText]

theorem C12_nested_return_skipped_witness :
    (scanFrom Scan.start ["#include <cstdio>", "int main(int argc, char** argv) \x7b"] =
        { inMain := true, braceCount := 1 } ∧
      2 ≤ countBraces 1 "    if (argc > 1) \x7b".toList ∧
      nestedFrom
        { inMain := true, braceCount := countBraces 1 "    if (argc > 1) \x7b".toList }
        ["        puts(argv[1]);", "        return 1;"] = true ∧
      countBraces (scanFrom
        { inMain := true, braceCount := countBraces 1 "    if (argc > 1) \x7b".toList }
        ["        puts(argv[1]);", "        return 1;"]).braceCount "    \x7d".toList = 1 ∧
      containsText "    \x7d" "return" = false ∧
      quietFrom { inMain := true, braceCount := 1 } ["    work();", "    done();"] = true ∧
      scanFrom { inMain := true, braceCount := 1 } ["    work();", "    done();"] =
        { inMain := true, braceCount := 1 } ∧
      countBraces 1 "    return 0;".toList = 1 ∧
      containsText "    return 0;" "return" = true) ∧
    rewrite (["#include <cstdio>", "int main(int argc, char** argv) \x7b"] ++
        ("    if (argc > 1) \x7b" :: (["        puts(argv[1]);", "        return 1;"] ++
          ("    \x7d" :: (["    work();", "    done();"] ++ ("    return 0;" :: ["\x7d"])))))) =
      includeLine :: (emitFrom Scan.start
          ["#include <cstdio>", "int main(int argc, char** argv) \x7b"] ++
        ("    if (argc > 1) \x7b" :: (["        puts(argv[1]);", "        return 1;"] ++
          ("    \x7d" :: (["    work();", "    done();"] ++ (reportBlock ++
            ("    return 0;" ::
              emitFrom { inMain := true, braceCount := 1 } ["\x7d"]))))))) :=
  ⟨⟨by decide, by decide, by decide, by decide, by decide, by decide, by decide, by decide,
      by decide⟩,
    C12_nested_return_skipped _ _ _ _ _ _ _ (by decide) (by decide) (by decide) (by decide)
      (by decide) (by decide) (by decide) (by decide) (by decide)⟩

/-! ## C15 -/

/-- C15 fails as stated. An entry function without any `return` statement but with a
depth-1 line that holds the text `return` inside a name gets the report block before
that line; an entry function without `return` followed by another function gets the
report block before the `return` line of that function (the defect of C11); and a
source in a directory, `sub/prog.cpp`, has its copy opened as
`instrumented_sub/prog.cpp`, so that where this directory does not exist no
instrumented output is written. -/
theorem C15_block_without_depth1_return :
    (inject "prog.cpp"
      ["int main() \x7b",
       "    int returned = 0;",
       "\x7d"]).copy =
      some (["#include \"memory_profiler.h\"",
        "int main() \x7b"] ++ reportBlock ++
       ["    int returned = 0;",
        "\x7d"]) ∧
    (inject "prog.cpp"
      ["int main() \x7b",
       "\x7d",
       "int helper() \x7b",
       "    return 1;",
       "\x7d"]).copy =
      some (["#include \"memory_profiler.h\"",
        "int main() \x7b",
        "\x7d",
        "int helper() \x7b"] ++ reportBlock ++
       ["    return 1;",
        "\x7d"]) ∧
    ((inject "sub/prog.cpp" ["int main() \x7b", "    work();", "\x7d"]).instrumentedFile =
        "instrumented_sub/prog.cpp" ∧
      instrumentedOnDisk false "sub/prog.cpp" ["int main() \x7b", "    work();", "\x7d"] =
        none) := by
  decide

/-- C15 (amended): for every target source without the marker in which some line
contains the entry signature but no line, once the entry signature has been seen,
both ends at brace depth exactly 1 and contains the text `return`, the injector
inserts nothing and raises no error: the instrumented copy, when it can be opened for
writing, is the include line followed by the input lines unchanged (when it cannot,
nothing is written), every report line in it was a line of the input, and the stage
goes on to compilation. -/
theorem C15_no_insertion (opened : Bool) (filename : String) (lines : List String)
    (hno : ∀ l ∈ lines, containsText l includeLine = false)
    (hentry : ∃ l ∈ lines, containsText l entrySignature = true)
    (hq : quietFrom Scan.start lines = true) :
    instrumentedOnDisk opened filename lines =
      (if opened then some (includeLine :: lines) else none) ∧
    (∀ x ∈ includeLine :: lines, x ∈ reportBlock → x ∈ lines) ∧
    (inject filename lines).outcome = Outcome.compile ("instrumented_" ++ filename) ∧
    (inject filename lines).outcome.exitStatus = none := by
  have hany : lines.any (fun l => containsText l entrySignature) = true :=
    List.any_eq_true.mpr hentry
  unfold instrumentedOnDisk
  rw [inject_no_marker filename lines hno]
  refine ⟨?_, ?_, by simp [hany], by simp [hany, Outcome.exitStatus]⟩
  · simp [rewrite, emitFrom_quiet Scan.start lines hq]
  · intro x hx hblock
    rcases List.mem_cons.mp hx with rfl | h
    · exact absurd hblock (by decide)
    · exact h

theorem C15_no_insertion_witness :
    ((∀ l ∈ ["#include <cstdio>", "int main() \x7b", "    if (fail()) \x7b",
          "        return 1;", "    \x7d", "    work();", "\x7d"],
        containsText l includeLine = false) ∧
      (∃ l ∈ ["#include <cstdio>", "int main() \x7b", "    if (fail()) \x7b",
          "        return 1;", "    \x7d", "    work();", "\x7d"],
        containsText l entrySignature = true) ∧
      quietFrom Scan.start ["#include <cstdio>", "int main() \x7b", "    if (fail()) \x7b",
          "        return 1;", "    \x7d", "    work();", "\x7d"] = true) ∧
    instrumentedOnDisk true "prog.cpp" ["#include <cstdio>", "int main() \x7b",
          "    if (fail()) \x7b", "        return 1;", "    \x7d", "    work();", "\x7d"] =
      (if true then
        some (includeLine :: ["#include <cstdio>", "int main() \x7b", "    if (fail()) \x7b",
          "        return 1;", "    \x7d", "    work();", "\x7d"])
      else none) :=
  ⟨⟨by decide, by decide, by decide⟩,
    (C15_no_insertion true "prog.cpp" _ (by decide) (by decide) (by decide)).1⟩

/-! ## C18 -/

theorem peak_le_stepOp (s : MemoryProfiler) (op : Op) :
    s.peakMemoryUsage ≤ (stepOp s op).peakMemoryUsage := by
  cases op with
  | alloc ptr size file line now =>
    simp only [stepOp, recordAllocation]
    split <;> omega
  | dealloc ptr =>
    simp only [stepOp, recordDeallocation]
    cases mapFind ptr s.allocations <;> exact Nat.le_refl _
  | detect => exact Nat.le_refl _
  | summary => exact Nat.le_refl _
  | html now => exact Nat.le_refl _

/-- C18: for every ledger state and every single call of `recordAllocation`,
`recordDeallocation`, `detectLeaks`, `printSummary` or `generateHTMLReport`,
`peakMemoryUsage` after the call is at least `peakMemoryUsage` before it; hence it is
non-decreasing across every sequence of such calls. -/
theorem C18_peak_monotone (s : MemoryProfiler) (op : Op) (ops : List Op) :
    s.peakMemoryUsage ≤ (stepOp s op).peakMemoryUsage ∧
    s.peakMemoryUsage ≤ (ops.foldl stepOp s).peakMemoryUsage := by
  refine ⟨peak_le_stepOp s op, ?_⟩
  induction ops generalizing s with
  | nil => exact Nat.le_refl _
  | cons o rest ih =>
    simp only [List.foldl_cons]
    exact Nat.le_trans (peak_le_stepOp s o) (ih (stepOp s o))

/-! ## C20 -/

theorem length_detectLeaks (s : MemoryProfiler) :
    (detectLeaks s).leakList.length = liveCount s.allocations := by
  simp only [detectLeaks, foldl_pushIfLeak, List.nil_append, liveCount, List.filter_map,
    List.length_map]
  rfl

/-- C20 fails as stated: `printSummary` shows `leakList.size()` and does not call
`detectLeaks`. After one allocation and no detection it shows 0 leaks with one unfreed
record; after an allocation, a detection and the release of the block it still shows
the 1 leak of the earlier detection with no unfreed record left. -/
theorem C20_summary_shows_cached_list :
    ((printSummary (run [.alloc 1 100 (some "a.c") 10 "t0"])).2.leakCount = 0 ∧
      liveCount (run [.alloc 1 100 (some "a.c") 10 "t0"]).allocations = 1) ∧
    ((printSummary ([Op.alloc 1 100 (some "a.c") 10 "t0", Op.detect, Op.dealloc 1].foldl
        stepOp MemoryProfiler.init)).2.leakCount = 1 ∧
      liveCount ([Op.alloc 1 100 (some "a.c") 10 "t0", Op.detect, Op.dealloc 1].foldl
        stepOp MemoryProfiler.init).allocations = 0) := by
  decide

/-- C20 (amended): for every ledger state, the leak count shown by `printSummary` is
the size of the cached leak list, and `printSummary` changes nothing; when
`detectLeaks` or `generateHTMLReport` has run on the ledger state right before it (as
in the injected report block, which calls `detectLeaks` first), the count shown equals
the number of records with `freed == false`. -/
theorem C20_summary_leak_count (s : MemoryProfiler) (now : String) :
    (printSummary s).2.leakCount = s.leakList.length ∧
    (printSummary s).1 = s ∧
    (printSummary (detectLeaks s)).2.leakCount = liveCount s.allocations ∧
    (printSummary (generateHTMLReport s now).1).2.leakCount = liveCount s.allocations :=
  ⟨rfl, rfl, length_detectLeaks s, length_detectLeaks s⟩

/-! ## C16 -/

theorem mapUpdate_ne_nil {K V : Type} [DecidableEq K] (lt : K → K → Prop) [DecidableRel lt]
    (k : K) (dflt : V) (f : V → V) (m : List (K × V)) : mapUpdate lt k dflt f m ≠ [] := by
  unfold mapUpdate
  cases h : mapFind k m with
  | none =>
    cases m with
    | nil => simp [mapInsert]
    | cons e rest =>
      simp only [mapInsert]
      split <;> simp
  | some r =>
    cases m with
    | nil => simp [mapFind] at h
    | cons e rest =>
      simp only [mapModify]
      split <;> simp

/-- The allocation counter after a sequence of calls: the `recordAllocation` calls
are added to it modulo `2 ^ 64`, and without such a call it is as it was. -/
theorem foldl_step_allocCount (calls : List Call) (s : MemoryProfiler) :
    (calls.foldl step s).totalAllocations =
        (s.totalAllocations + allocCount calls) % SIZE_MOD ∨
      (allocCount calls = 0 ∧ (calls.foldl step s).totalAllocations = s.totalAllocations) := by
  induction calls generalizing s with
  | nil => right; exact ⟨rfl, rfl⟩
  | cons c rest ih =>
    simp only [List.foldl_cons]
    cases c with
    | alloc ptr size file line now =>
      left
      have h1 : (step s (.alloc ptr size file line now)).totalAllocations =
          (s.totalAllocations + 1) % SIZE_MOD := rfl
      rcases ih (step s (.alloc ptr size file line now)) with h | ⟨h0, h⟩
      · rw [h, h1]
        simp only [allocCount]
        rw [SIZE_MOD_eq]
        omega
      · rw [h, h1]
        simp only [allocCount, h0]
    | dealloc ptr =>
      have h1 : (step s (.dealloc ptr)).totalAllocations = s.totalAllocations := by
        simp only [step, recordDeallocation]
        cases mapFind ptr s.allocations <;> rfl
      rcases ih (step s (.dealloc ptr)) with h | ⟨h0, h⟩
      · left
        rw [h, h1]
        simp only [allocCount]
      · right
        exact ⟨by simpa [allocCount] using h0, by rw [h, h1]⟩

theorem foldl_step_sites_nil (calls : List Call) (s : MemoryProfiler) :
    (calls.foldl step s).allocationSites = [] ↔
      (s.allocationSites = [] ∧ allocCount calls = 0) := by
  induction calls generalizing s with
  | nil => simp [allocCount]
  | cons c rest ih =>
    simp only [List.foldl_cons]
    rw [ih]
    cases c with
    | alloc ptr size file line now =>
      have hne : (step s (.alloc ptr size file line now)).allocationSites ≠ [] :=
        mapUpdate_ne_nil strLess _ _ _ _
      simp [hne, allocCount]
    | dealloc ptr =>
      have h1 : (step s (.dealloc ptr)).allocationSites = s.allocationSites := by
        simp only [step, recordDeallocation]
        cases mapFind ptr s.allocations <;> rfl
      simp [h1, allocCount]

theorem run_totalAllocations (calls : List Call) :
    (run calls).totalAllocations = allocCount calls % SIZE_MOD := by
  unfold run
  rcases foldl_step_allocCount calls MemoryProfiler.init with h | ⟨h0, h⟩
  · rw [h]
    simp [MemoryProfiler.init]
  · rw [h, h0]
    rfl

theorem topSites_length (sites : List (String × Nat)) :
    (topSites sites).length = min 10 sites.length := by
  have hperm : (sortSites sites).Perm sites := foldl_innerLoop_perm sites _
  unfold topSites displayCount
  rw [filterMap_range_getElem?, List.length_take, hperm.length_eq]
  split <;> omega

theorem generateHTMLReport_sites (s : MemoryProfiler) (now : String) :
    (generateHTMLReport s now).2.sites = topSites s.allocationSites := rfl

theorem topSites_ne_nil (sites : List (String × Nat)) (h : sites ≠ []) :
    topSites sites ≠ [] := by
  intro h0
  have hlen := topSites_length sites
  rw [h0] at hlen
  have hpos : 0 < sites.length := List.length_pos.mpr h
  simp only [List.length_nil] at hlen
  omega

theorem allocCount_replicate (n ptr size : Nat) (file : Option String) (line : Int)
    (now : String) : allocCount (List.replicate n (Call.alloc ptr size file line now)) = n := by
  induction n with
  | zero => rfl
  | succ n ih => rw [List.replicate_succ, allocCount, ih]

theorem sortSites_nil : sortSites [] = [] := rfl

theorem topSites_nil : topSites [] = [] := rfl

/-- C16 fails as stated: `totalAllocations` is a `size_t`, and after `2 ^ 64` calls of
`recordAllocation` it is back at 0 while the site table holds an entry, so the
percentage of that entry is computed with a divisor of zero. -/
theorem C16_zero_total_with_sites :
    (run (List.replicate (2 ^ 64) (Call.alloc 1 8 none 0 "t0"))).totalAllocations = 0 ∧
    (run (List.replicate (2 ^ 64) (Call.alloc 1 8 none 0 "t0"))).allocationSites ≠ [] ∧
    (generateHTMLReport (run (List.replicate (2 ^ 64) (Call.alloc 1 8 none 0 "t0")))
      "t1").2.sites ≠ [] := by
  have hsites :
      (run (List.replicate (2 ^ 64) (Call.alloc 1 8 none 0 "t0"))).allocationSites ≠ [] := by
    intro h
    have h2 := (foldl_step_sites_nil _ MemoryProfiler.init).mp h
    rw [allocCount_replicate] at h2
    exact absurd h2.2 (by norm_num)
  refine ⟨?_, hsites, ?_⟩
  · rw [run_totalAllocations, allocCount_replicate]
    exact Nat.mod_self _
  · rw [generateHTMLReport_sites]
    exact topSites_ne_nil _ hsites

/-- C16 (amended): in every ledger state reached from the empty ledger by a sequence
of calls with fewer than `2 ^ 64` calls of `recordAllocation` in which
`totalAllocations == 0`, the site table is empty, so the report shows no allocation
site and evaluates no percentage `count * 100.0 / totalAllocations`. -/
theorem C16_no_site_without_allocation (calls : List Call) (now : String)
    (hfew : allocCount calls < 2 ^ 64) (hzero : (run calls).totalAllocations = 0) :
    (run calls).allocationSites = [] ∧
    topSites (run calls).allocationSites = [] ∧
    (generateHTMLReport (run calls) now).2.sites = [] := by
  have hcount : allocCount calls = 0 := by
    rw [run_totalAllocations, SIZE_MOD_eq] at hzero
    omega
  have hsites : (run calls).allocationSites = [] :=
    (foldl_step_sites_nil calls MemoryProfiler.init).mpr ⟨rfl, hcount⟩
  refine ⟨hsites, ?_, ?_⟩
  · rw [hsites]
    rfl
  · rw [generateHTMLReport_sites, hsites]
    rfl

theorem C16_no_site_without_allocation_witness :
    (allocCount [.dealloc 3, .dealloc 4] < 2 ^ 64 ∧
      (run [.dealloc 3, .dealloc 4]).totalAllocations = 0) ∧
    (generateHTMLReport (run [.dealloc 3, .dealloc 4]) "t0").2.sites = [] :=
  ⟨⟨by decide, by decide⟩,
    (C16_no_site_without_allocation [.dealloc 3, .dealloc 4] "t0" (by decide)
      (by decide)).2.2⟩

/-! ## C17 -/

theorem siteCount_eq (s : MemoryProfiler) (site : String) :
    siteCount s site = (mapFind site s.allocationSites).getD 0 := by
  unfold siteCount
  cases mapFind site s.allocationSites <;> rfl

theorem mem_keys_mapInsert {K V : Type} (lt : K → K → Prop) [DecidableRel lt] (k : K)
    (v : V) (m : List (K × V)) (p : K) :
    p ∈ (mapInsert lt k v m).map Prod.fst ↔ p = k ∨ p ∈ m.map Prod.fst := by
  simp only [List.mem_map, mem_mapInsert]
  constructor
  · rintro ⟨e, he | he, rfl⟩
    · left; rw [he]
    · right; exact ⟨e, he, rfl⟩
  · rintro (rfl | ⟨e, he, rfl⟩)
    · exact ⟨(p, v), Or.inl rfl, rfl⟩
    · exact ⟨e, Or.inr he, rfl⟩

theorem mem_keys_mapUpdate {K V : Type} [DecidableEq K] (lt : K → K → Prop)
    [DecidableRel lt] (k : K) (dflt : V) (f : V → V) (m : List (K × V)) (p : K) :
    p ∈ (mapUpdate lt k dflt f m).map Prod.fst ↔ p = k ∨ p ∈ m.map Prod.fst := by
  unfold mapUpdate
  cases h : mapFind k m with
  | none => exact mem_keys_mapInsert lt k (f dflt) m p
  | some r =>
    simp only [map_fst_mapModify]
    constructor
    · exact Or.inr
    · rintro (rfl | hp)
      · exact List.mem_map.mpr ⟨(p, r), mapFind_mem p m r h, rfl⟩
      · exact hp

theorem keys_recordDeallocation (s : MemoryProfiler) (ptr : Nat) :
    (recordDeallocation s ptr).allocations.map Prod.fst = s.allocations.map Prod.fst := by
  simp only [recordDeallocation]
  cases mapFind ptr s.allocations with
  | none => rfl
  | some r => exact map_fst_mapModify ptr _ s.allocations

theorem foldl_step_keys (calls : List Call) (s : MemoryProfiler) (p : Nat) :
    p ∈ (calls.foldl step s).allocations.map Prod.fst ↔
      (p ∈ s.allocations.map Prod.fst ∨ p ∈ allocatedAddresses calls) := by
  induction calls generalizing s with
  | nil => simp [allocatedAddresses]
  | cons c rest ih =>
    simp only [List.foldl_cons]
    rw [ih]
    cases c with
    | alloc ptr size file line now =>
      have h1 : p ∈ (step s (.alloc ptr size file line now)).allocations.map Prod.fst ↔
          (p = ptr ∨ p ∈ s.allocations.map Prod.fst) :=
        mem_keys_mapUpdate ptrLess ptr AllocationInfo.default _ s.allocations p
      rw [h1]
      simp only [allocatedAddresses, List.mem_cons]
      tauto
    | dealloc ptr =>
      have h1 : (step s (.dealloc ptr)).allocations.map Prod.fst =
          s.allocations.map Prod.fst := keys_recordDeallocation s ptr
      rw [h1]
      simp only [allocatedAddresses]

theorem forall₂_mapModify_freed (ptr : Nat) (m : List (Nat × AllocationInfo)) :
    List.Forall₂
      (fun e e2 => e2.1 = e.1 ∧ e2.2.address = e.2.address ∧ e2.2.size = e.2.size ∧
        e2.2.file = e.2.file ∧ e2.2.line = e.2.line ∧ e2.2.timestamp = e.2.timestamp ∧
        e2.2.threadId = e.2.threadId ∧
        (e2.2.freed = e.2.freed ∨ (e.1 = ptr ∧ e2.2.freed = true)))
      m (mapModify ptr (fun r => { r with freed := true }) m) := by
  have hrefl : ∀ l : List (Nat × AllocationInfo), List.Forall₂
      (fun e e2 => e2.1 = e.1 ∧ e2.2.address = e.2.address ∧ e2.2.size = e.2.size ∧
        e2.2.file = e.2.file ∧ e2.2.line = e.2.line ∧ e2.2.timestamp = e.2.timestamp ∧
        e2.2.threadId = e.2.threadId ∧
        (e2.2.freed = e.2.freed ∨ (e.1 = ptr ∧ e2.2.freed = true))) l l := by
    intro l
    induction l with
    | nil => exact List.Forall₂.nil
    | cons e rest ih =>
      exact List.Forall₂.cons ⟨rfl, rfl, rfl, rfl, rfl, rfl, rfl, Or.inl rfl⟩ ih
  induction m with
  | nil => exact List.Forall₂.nil
  | cons e rest ih =>
    obtain ⟨k0, v0⟩ := e
    by_cases h0 : k0 = ptr
    · simp only [mapModify, h0, if_true]
      exact List.Forall₂.cons ⟨rfl, rfl, rfl, rfl, rfl, rfl, rfl, Or.inr ⟨rfl, rfl⟩⟩
        (hrefl rest)
    · simp only [mapModify, h0, if_false]
      exact List.Forall₂.cons ⟨rfl, rfl, rfl, rfl, rfl, rfl, rfl, Or.inl rfl⟩ ih

theorem siteCount_stepOp (s : MemoryProfiler) (op : Op) (site : String) :
    siteCount (stepOp s op) site = siteCount s site ∨
      siteCount (stepOp s op) site = (siteCount s site + 1) % SIZE_MOD := by
  cases op with
  | alloc ptr size file line now =>
    simp only [siteCount_eq, stepOp, recordAllocation, mapFind_mapUpdate]
    by_cases hk : site = siteKey file line
    · right
      simp [hk, add64]
    · left
      simp [hk]
  | dealloc ptr =>
    left
    simp only [siteCount_eq, stepOp, recordDeallocation]
    cases mapFind ptr s.allocations <;> rfl
  | detect => left; rfl
  | summary => left; rfl
  | html now => left; rfl

theorem replicate_alloc_sites (n ptr size : Nat) (now : String) (s : MemoryProfiler)
    (c : Nat) (hs : s.allocationSites = [("unknown:0", c)]) :
    ((List.replicate n (Call.alloc ptr size none 0 now)).foldl step s).allocationSites =
      [("unknown:0", if n = 0 then c else (c + n) % SIZE_MOD)] := by
  induction n generalizing s c with
  | zero => simpa using hs
  | succ n ih =>
    rw [List.replicate_succ, List.foldl_cons]
    have hkey : siteKey none 0 = "unknown:0" := by decide
    have h1 : (step s (.alloc ptr size none 0 now)).allocationSites =
        [("unknown:0", (c + 1) % SIZE_MOD)] := by
      simp [step, recordAllocation, hkey, hs, mapUpdate, mapFind, mapModify, add64]
    rw [ih _ _ h1]
    simp only [Nat.succ_ne_zero, if_false, List.cons.injEq, Prod.mk.injEq, true_and, and_true]
    split
    · rename_i h0
      subst h0
      rfl
    · rw [SIZE_MOD_eq]
      omega

theorem run_replicate_alloc_sites (n ptr size : Nat) (now : String) :
    (run (List.replicate (n + 1) (Call.alloc ptr size none 0 now))).allocationSites =
      [("unknown:0", if n = 0 then 1 else (1 + n) % SIZE_MOD)] := by
  unfold run
  rw [List.replicate_succ, List.foldl_cons]
  have hkey : siteKey none 0 = "unknown:0" := by decide
  have h1 : (step MemoryProfiler.init (.alloc ptr size none 0 now)).allocationSites =
      [("unknown:0", 1)] := by
    simp [step, recordAllocation, MemoryProfiler.init, hkey, mapUpdate, mapFind, mapInsert,
      add64, SIZE_MOD_eq]
  exact replicate_alloc_sites n ptr size now _ 1 h1

theorem step_alloc_sites (s : MemoryProfiler) (ptr size : Nat) (file : Option String)
    (line : Int) (now : String) :
    (step s (.alloc ptr size file line now)).allocationSites =
      mapUpdate strLess (siteKey file line) 0 (fun c => add64 c 1) s.allocationSites := rfl

/-- C17 fails as stated in its last part: a site count is a `size_t` and the `++` of
`recordAllocation` wraps it. After `2 ^ 64 - 1` allocations from one site the count is
`2 ^ 64 - 1`, and one more allocation from that site takes it down to 0. -/
theorem C17_site_count_wraps :
    siteCount (run (List.replicate (2 ^ 64 - 1) (Call.alloc 1 8 none 0 "t0")))
      "unknown:0" = 2 ^ 64 - 1 ∧
    siteCount (step (run (List.replicate (2 ^ 64 - 1) (Call.alloc 1 8 none 0 "t0")))
      (Call.alloc 1 8 none 0 "t0")) "unknown:0" = 0 := by
  have e : (2 : Nat) ^ 64 - 1 = (2 ^ 64 - 2) + 1 := by norm_num
  have hs : (run (List.replicate (2 ^ 64 - 1) (Call.alloc 1 8 none 0 "t0"))).allocationSites =
      [("unknown:0", 2 ^ 64 - 1)] := by
    rw [e, run_replicate_alloc_sites]
    decide
  have h2 := step_alloc_sites
    (run (List.replicate (2 ^ 64 - 1) (Call.alloc 1 8 none 0 "t0"))) 1 8 none 0 "t0"
  rw [hs] at h2
  constructor
  · rw [siteCount_eq, hs]
    decide
  · rw [siteCount_eq, h2]
    decide

/-- C17 (amended): `recordDeallocation` never erases or decrements: for every ledger
state and address, after `recordDeallocation` the map has the same keys in the same
order, every record keeps its address, size, file, line, timestamp and thread (at most
the freed flag of the record under the address becomes true), and `totalAllocations`,
`peakMemoryUsage` and the site table are unchanged. So the key set of every ledger
reached from the empty one equals the set of addresses passed to `recordAllocation`,
and no call of a member function decreases a site count that is below `2 ^ 64 - 1`
(at `2 ^ 64 - 1` the `++` of `recordAllocation` wraps it to 0). -/
theorem C17_release_keeps_records (s : MemoryProfiler) (ptr : Nat) (calls : List Call)
    (op : Op) (site : String) (hroom : siteCount s site + 1 < 2 ^ 64) :
    (recordDeallocation s ptr).allocations.map Prod.fst = s.allocations.map Prod.fst ∧
    List.Forall₂
      (fun e e2 => e2.1 = e.1 ∧ e2.2.address = e.2.address ∧ e2.2.size = e.2.size ∧
        e2.2.file = e.2.file ∧ e2.2.line = e.2.line ∧ e2.2.timestamp = e.2.timestamp ∧
        e2.2.threadId = e.2.threadId ∧
        (e2.2.freed = e.2.freed ∨ (e.1 = ptr ∧ e2.2.freed = true)))
      s.allocations (recordDeallocation s ptr).allocations ∧
    (recordDeallocation s ptr).totalAllocations = s.totalAllocations ∧
    (recordDeallocation s ptr).peakMemoryUsage = s.peakMemoryUsage ∧
    (recordDeallocation s ptr).allocationSites = s.allocationSites ∧
    (∀ p, p ∈ (run calls).allocations.map Prod.fst ↔ p ∈ allocatedAddresses calls) ∧
    siteCount s site ≤ siteCount (stepOp s op) site := by
  refine ⟨keys_recordDeallocation s ptr, ?_, ?_, ?_, ?_, ?_, ?_⟩
  · simp only [recordDeallocation]
    cases mapFind ptr s.allocations with
    | none =>
      induction s.allocations with
      | nil => exact List.Forall₂.nil
      | cons e rest ih =>
        exact List.Forall₂.cons ⟨rfl, rfl, rfl, rfl, rfl, rfl, rfl, Or.inl rfl⟩ ih
    | some r => exact forall₂_mapModify_freed ptr s.allocations
  · simp only [recordDeallocation]
    cases mapFind ptr s.allocations <;> rfl
  · simp only [recordDeallocation]
    cases mapFind ptr s.allocations <;> rfl
  · simp only [recordDeallocation]
    cases mapFind ptr s.allocations <;> rfl
  · intro p
    have := foldl_step_keys calls MemoryProfiler.init p
    unfold run
    rw [this]
    simp [MemoryProfiler.init]
  · rcases siteCount_stepOp s op site with h | h
    · rw [h]
    · rw [h, SIZE_MOD_eq]
      omega

theorem C17_release_keeps_records_witness :
    siteCount (run [.alloc 1 100 (some "a.c") 10 "t0", .alloc 2 50 none 11 "t1"]) "a.c:10" + 1
        < 2 ^ 64 ∧
      siteCount (run [.alloc 1 100 (some "a.c") 10 "t0", .alloc 2 50 none 11 "t1"]) "a.c:10" ≤
        siteCount (stepOp (run [.alloc 1 100 (some "a.c") 10 "t0", .alloc 2 50 none 11 "t1"])
          (Op.alloc 3 8 (some "a.c") 10 "t2")) "a.c:10" :=
  ⟨by decide,
    (C17_release_keeps_records
      (run [.alloc 1 100 (some "a.c") 10 "t0", .alloc 2 50 none 11 "t1"]) 1
      [.alloc 1 100 (some "a.c") 10 "t0", .dealloc 1] (Op.alloc 3 8 (some "a.c") 10 "t2")
      "a.c:10" (by decide)).2.2.2.2.2.2⟩

/-! ## The bodies of the renderers -/

/-- The statements of the bodies of the two renderers, taken alone (the releases of
their strings, of `sortedSites` and of the old leak list, which go through
`operatorDelete`, are not among them): `generateHTMLReport` gives the state
`detectLeaks` gives, `printSummary` gives the state it was given, and a second
`generateHTMLReport` renders the same statistics, leak rows and site ranking as the
first, the generation timestamp apart. -/
theorem rendering_body_reads_only (s : MemoryProfiler) (now now2 : String) :
    (generateHTMLReport s now).1 = detectLeaks s ∧
    (generateHTMLReport s now).1.allocations = s.allocations ∧
    (generateHTMLReport s now).1.totalAllocations = s.totalAllocations ∧
    (generateHTMLReport s now).1.totalDeallocations = s.totalDeallocations ∧
    (generateHTMLReport s now).1.currentMemoryUsage = s.currentMemoryUsage ∧
    (generateHTMLReport s now).1.peakMemoryUsage = s.peakMemoryUsage ∧
    (generateHTMLReport s now).1.allocationSites = s.allocationSites ∧
    (printSummary s).1 = s ∧
    (generateHTMLReport (generateHTMLReport s now).1 now2).1 = (generateHTMLReport s now).1 ∧
    (generateHTMLReport (generateHTMLReport s now).1 now2).2 =
      { (generateHTMLReport s now).2 with generated := now2 } ∧
    (generateHTMLReport (printSummary (generateHTMLReport s now).1).1 now2).2 =
      { (generateHTMLReport s now).2 with generated := now2 } :=
  ⟨rfl, rfl, rfl, rfl, rfl, rfl, rfl, rfl, rfl, rfl, rfl⟩

/-! ## C22 -/

theorem disciplined_of_allocatorDiscipline (s : MemoryProfiler) (c : Call)
    (h : allocatorDiscipline s c = true) : disciplined s c = true := by
  cases c with
  | alloc ptr size file line now => exact h
  | dealloc ptr =>
    simp only [allocatorDiscipline] at h
    simp only [disciplined]
    cases hf : mapFind ptr s.allocations with
    | none => rfl
    | some r =>
      rw [hf] at h
      exact h

theorem noUnderflow_of_allocatorDiscipline (s : MemoryProfiler) (c : Call)
    (hcur : s.currentMemoryUsage = liveBytes s.allocations)
    (h : allocatorDiscipline s c = true) : noUnderflow s c = true := by
  cases c with
  | alloc ptr size file line now => rfl
  | dealloc ptr =>
    simp only [allocatorDiscipline] at h
    simp only [noUnderflow]
    cases hf : mapFind ptr s.allocations with
    | none => simp [hf] at h
    | some r =>
      rw [hf] at h
      have hr : r.freed = false := by simpa using h
      have hsum := liveBytes_free s.allocations ptr r hf hr
      have hle : r.size ≤ s.currentMemoryUsage := by omega
      simp [hr, hle]

theorem liveCount_le_length (m : List (Nat × AllocationInfo)) : liveCount m ≤ m.length :=
  List.length_filter_le _ _

/-- The three ledger invariants, with the counters in range, are kept by every call
that follows allocator discipline and leaves the live sizes below `2 ^ 64`. -/
theorem ledger_step (s : MemoryProfiler) (c : Call)
    (hs : (s.currentMemoryUsage = liveBytes s.allocations ∧
        liveBytes s.allocations < SIZE_MOD) ∧
      (s.totalAllocations < SIZE_MOD ∧ s.totalDeallocations < SIZE_MOD ∧
        s.totalAllocations = (s.totalDeallocations + liveCount s.allocations) % SIZE_MOD) ∧
      s.currentMemoryUsage ≤ s.peakMemoryUsage)
    (hc : inRange s c = true) :
    ((step s c).currentMemoryUsage = liveBytes (step s c).allocations ∧
        liveBytes (step s c).allocations < SIZE_MOD) ∧
      ((step s c).totalAllocations < SIZE_MOD ∧ (step s c).totalDeallocations < SIZE_MOD ∧
        (step s c).totalAllocations =
          ((step s c).totalDeallocations + liveCount (step s c).allocations) % SIZE_MOD) ∧
      (step s c).currentMemoryUsage ≤ (step s c).peakMemoryUsage := by
  obtain ⟨⟨hcur, hlt⟩, hcount, hpeak⟩ := hs
  simp only [inRange, Bool.and_eq_true, decide_eq_true_eq] at hc
  obtain ⟨hdisc, hnext⟩ := hc
  have hd := disciplined_of_allocatorDiscipline s c hdisc
  have hmod : s.currentMemoryUsage = liveBytes s.allocations % SIZE_MOD := by
    rw [Nat.mod_eq_of_lt hlt]
    exact hcur
  have hb := bytes_step s c hmod hd
  rw [Nat.mod_eq_of_lt hnext] at hb
  have hcurlt : s.currentMemoryUsage < SIZE_MOD := by
    rw [hcur]
    exact hlt
  exact ⟨⟨hb, hnext⟩, count_step s c hcount hd,
    (peak_step s c ⟨hcurlt, hpeak⟩ (noUnderflow_of_allocatorDiscipline s c hcur hdisc)).2⟩

/-- C22: for every call sequence from the empty ledger that follows allocator
discipline (`recordAllocation` only on an address that is absent or whose record is
freed, `recordDeallocation` only on an address whose record is present and not freed)
and keeps the total of the live sizes below `2 ^ 64` after every call, the state
reached (its map, as every `std::map`, holding fewer than `2 ^ 64` records) satisfies
the three ledger invariants together: `currentMemoryUsage` equals the sum of the sizes
of the unfreed records, `totalAllocations - totalDeallocations` equals the number of
unfreed records, and `peakMemoryUsage >= currentMemoryUsage`. -/
theorem C22_ledger_invariants (calls : List Call)
    (hcalls : allowedFrom inRange MemoryProfiler.init calls = true)
    (hsize : (run calls).allocations.length < 2 ^ 64) :
    (run calls).currentMemoryUsage = liveBytes (run calls).allocations ∧
    activeAllocations (run calls) = liveCount (run calls).allocations ∧
    (run calls).currentMemoryUsage ≤ (run calls).peakMemoryUsage := by
  have key := allowedFrom_induction inRange
    (fun s => (s.currentMemoryUsage = liveBytes s.allocations ∧
        liveBytes s.allocations < SIZE_MOD) ∧
      (s.totalAllocations < SIZE_MOD ∧ s.totalDeallocations < SIZE_MOD ∧
        s.totalAllocations = (s.totalDeallocations + liveCount s.allocations) % SIZE_MOD) ∧
      s.currentMemoryUsage ≤ s.peakMemoryUsage)
    ledger_step calls MemoryProfiler.init (by decide) hcalls
  obtain ⟨⟨hcur, _⟩, ⟨h1, h2, h3⟩, hpeak⟩ := key
  refine ⟨hcur, ?_, hpeak⟩
  have hle := liveCount_le_length (run calls).allocations
  show sub64 (run calls).totalAllocations (run calls).totalDeallocations = _
  unfold run at *
  unfold sub64
  rw [SIZE_MOD_eq] at *
  omega

theorem C22_ledger_invariants_witness :
    (allowedFrom inRange MemoryProfiler.init
        [.alloc 16 100 (some "a.c") 10 "t0", .alloc 32 (2 ^ 64 - 101) none 11 "t1",
          .dealloc 16, .alloc 16 7 (some "b.c") 3 "t2", .dealloc 32] = true ∧
      (run [.alloc 16 100 (some "a.c") 10 "t0", .alloc 32 (2 ^ 64 - 101) none 11 "t1",
          .dealloc 16, .alloc 16 7 (some "b.c") 3 "t2", .dealloc 32]).allocations.length
        < 2 ^ 64) ∧
    ((run [.alloc 16 100 (some "a.c") 10 "t0", .alloc 32 (2 ^ 64 - 101) none 11 "t1",
        .dealloc 16, .alloc 16 7 (some "b.c") 3 "t2", .dealloc 32]).currentMemoryUsage =
      liveBytes (run [.alloc 16 100 (some "a.c") 10 "t0",
        .alloc 32 (2 ^ 64 - 101) none 11 "t1", .dealloc 16, .alloc 16 7 (some "b.c") 3 "t2",
        .dealloc 32]).allocations ∧
    activeAllocations (run [.alloc 16 100 (some "a.c") 10 "t0",
        .alloc 32 (2 ^ 64 - 101) none 11 "t1", .dealloc 16, .alloc 16 7 (some "b.c") 3 "t2",
        .dealloc 32]) =
      liveCount (run [.alloc 16 100 (some "a.c") 10 "t0",
        .alloc 32 (2 ^ 64 - 101) none 11 "t1", .dealloc 16, .alloc 16 7 (some "b.c") 3 "t2",
        .dealloc 32]).allocations ∧
    (run [.alloc 16 100 (some "a.c") 10 "t0", .alloc 32 (2 ^ 64 - 101) none 11 "t1",
        .dealloc 16, .alloc 16 7 (some "b.c") 3 "t2", .dealloc 32]).currentMemoryUsage ≤
      (run [.alloc 16 100 (some "a.c") 10 "t0", .alloc 32 (2 ^ 64 - 101) none 11 "t1",
        .dealloc 16, .alloc 16 7 (some "b.c") 3 "t2", .dealloc 32]).peakMemoryUsage) :=
  ⟨⟨by decide, by decide⟩, C22_ledger_invariants _ (by decide) (by decide)⟩

/-! ## C5, C8 and C21: the member functions release their own heap blocks

The ledger in the three theorems below is the one after `recordAllocation(1, 20)` and
`recordDeallocation(1)`: the block at address 1 is free again, and its record stays in
the map with `freed == true`. The allocator then places a string buffer of the ledger
itself at address 1, and the release of that buffer reaches `recordDeallocation`
through `operatorDelete`. It finds the old record and, not reading its `freed` flag
(the defect of C2), subtracts its size and counts a deallocation. Every other release
of these calls is at an address the map does not hold and changes nothing. -/

/-- C5 (the code at the failing input): the call `recordAllocation(2, 200, "a.c", 10)`
on the ledger above. The statements of the body take `currentMemoryUsage` from 0 to
200 and leave `totalDeallocations` at 1; the release, at the end of the call, of the
call's own string buffer at address 1 leaves them at 180 and 2, so after the call
`currentMemoryUsage` has grown by 180 and not by `size`. -/
theorem C5_own_buffer_release_is_counted :
    (run [.alloc 1 20 (some "a.c") 5 "t0", .dealloc 1]).currentMemoryUsage = 0 ∧
    (run [.alloc 1 20 (some "a.c") 5 "t0", .dealloc 1]).totalDeallocations = 1 ∧
    (recordAllocation (run [.alloc 1 20 (some "a.c") 5 "t0", .dealloc 1])
      2 200 (some "a.c") 10 "t1").currentMemoryUsage = 200 ∧
    (operatorDelete (recordAllocation (run [.alloc 1 20 (some "a.c") 5 "t0", .dealloc 1])
      2 200 (some "a.c") 10 "t1") 1).currentMemoryUsage = 180 ∧
    (operatorDelete (recordAllocation (run [.alloc 1 20 (some "a.c") 5 "t0", .dealloc 1])
      2 200 (some "a.c") 10 "t1") 1).totalDeallocations = 2 := by
  decide

/-- C8 (the code at the failing input): on the ledger above, after
`recordAllocation(2, 20)` and a first `detectLeaks`, the leak list holds a copy of the
record of address 2 whose string buffer lies at address 1. A second `detectLeaks`
starts with `leakList.clear()`, which releases that buffer: the call ends with the
same leak list, but `totalDeallocations` has gone from 1 to 2 and `currentMemoryUsage`
from 20 to 0, so the state differs from the one after the first call. -/
theorem C8_second_detection_changes_counters :
    (detectLeaks (run [.alloc 1 20 (some "a.c") 5 "t0", .dealloc 1,
      .alloc 2 20 (some "a.c") 10 "t1"])).totalDeallocations = 1 ∧
    (detectLeaks (run [.alloc 1 20 (some "a.c") 5 "t0", .dealloc 1,
      .alloc 2 20 (some "a.c") 10 "t1"])).currentMemoryUsage = 20 ∧
    (detectLeaks (operatorDelete (detectLeaks (run [.alloc 1 20 (some "a.c") 5 "t0",
      .dealloc 1, .alloc 2 20 (some "a.c") 10 "t1"])) 1)).totalDeallocations = 2 ∧
    (detectLeaks (operatorDelete (detectLeaks (run [.alloc 1 20 (some "a.c") 5 "t0",
      .dealloc 1, .alloc 2 20 (some "a.c") 10 "t1"])) 1)).currentMemoryUsage = 0 ∧
    (detectLeaks (operatorDelete (detectLeaks (run [.alloc 1 20 (some "a.c") 5 "t0",
      .dealloc 1, .alloc 2 20 (some "a.c") 10 "t1"])) 1)).leakList =
      (detectLeaks (run [.alloc 1 20 (some "a.c") 5 "t0", .dealloc 1,
        .alloc 2 20 (some "a.c") 10 "t1"])).leakList ∧
    detectLeaks (operatorDelete (detectLeaks (run [.alloc 1 20 (some "a.c") 5 "t0",
      .dealloc 1, .alloc 2 20 (some "a.c") 10 "t1"])) 1) ≠
      detectLeaks (run [.alloc 1 20 (some "a.c") 5 "t0", .dealloc 1,
        .alloc 2 20 (some "a.c") 10 "t1"]) := by
  decide

/-- C21 (the code at the failing input): the injected report block on the ledger
above after `recordAllocation(2, 20)`. `detectLeaks` fills the leak list, with a
string buffer at address 1; `printSummary` shows 1 deallocation and 20 bytes in use;
`generateHTMLReport` starts with `detectLeaks`, whose `leakList.clear()` releases that
buffer, and then renders 2 deallocations and 0 bytes in use, and leaves the ledger
with these counters: the rendering has changed what it renders. -/
theorem C21_report_changes_counters :
    (printSummary (detectLeaks (run [.alloc 1 20 (some "a.c") 5 "t0", .dealloc 1,
      .alloc 2 20 (some "a.c") 10 "t1"]))).2.totalDeallocations = 1 ∧
    (printSummary (detectLeaks (run [.alloc 1 20 (some "a.c") 5 "t0", .dealloc 1,
      .alloc 2 20 (some "a.c") 10 "t1"]))).2.currentBytes = 20 ∧
    (generateHTMLReport (operatorDelete (detectLeaks (run [.alloc 1 20 (some "a.c") 5 "t0",
      .dealloc 1, .alloc 2 20 (some "a.c") 10 "t1"])) 1) "t2").2.totalDeallocations = 2 ∧
    (generateHTMLReport (operatorDelete (detectLeaks (run [.alloc 1 20 (some "a.c") 5 "t0",
      .dealloc 1, .alloc 2 20 (some "a.c") 10 "t1"])) 1) "t2").2.currentBytes = 0 ∧
    (generateHTMLReport (operatorDelete (detectLeaks (run [.alloc 1 20 (some "a.c") 5 "t0",
      .dealloc 1, .alloc 2 20 (some "a.c") 10 "t1"])) 1) "t2").1.totalDeallocations = 2 ∧
    (generateHTMLReport (operatorDelete (detectLeaks (run [.alloc 1 20 (some "a.c") 5 "t0",
      .dealloc 1, .alloc 2 20 (some "a.c") 10 "t1"])) 1) "t2").1.currentMemoryUsage = 0 := by
  decide

end MemProf
